import Mathlib

/-
Verification of the zrx identifier core (crates/zrx-id) against its
specification.  The Rust code is shallowly embedded at the byte level:
buffers are lists of natural numbers (bytes), `u16` span bounds are
naturals with the explicit range checks of `checked_add_signed`, and the
`u64` flag word is a natural used through `Nat.testBit` and bit masks.
The percent-encoding codec (crate `percent_encoding`) is modelled from
its documented per-byte behaviour; the glob engine (crate `globset`) is
kept abstract as boolean predicates on byte strings.
-/

set_option maxHeartbeats 1000000
set_option maxRecDepth 8192

namespace Zrx

/-- Byte value of the delimiter character `:` (0x3A). -/
def DELIM : Nat := 58

/-- Byte value of the percent sign `%` (0x25). -/
def PCT : Nat := 37

/-- Byte value of the backslash character (0x5C). -/
def BSLASH : Nat := 92

/-- Bytes of an ASCII string literal, used to write concrete buffers. -/
def strB (s : String) : List Nat := s.data.map Char.toNat

/-- The bytes escaped by `percent_encode(value, SET)` in `encoding.rs`:
the `AsciiSet` is C0 controls (0x00..0x1F), DEL (0x7F) and the delimiter
`:` (`CONTROLS.add(b':')`), and the `percent_encoding` crate additionally
always escapes every non-ASCII byte (>= 0x80) regardless of the set. -/
def shouldEncode (b : Nat) : Bool :=
  b ≤ 31 || b == 127 || b == DELIM || 128 ≤ b

/-- Uppercase hexadecimal digit emitted by percent-encoding. -/
def hexDigit (n : Nat) : Nat := if n < 10 then 48 + n else 65 + (n - 10)

/-- Percent-encoding of a single byte. -/
def encodeByte (b : Nat) : List Nat :=
  if shouldEncode b then [PCT, hexDigit (b / 16), hexDigit (b % 16)] else [b]

/-- Model of `encode` in `encoding.rs`: `percent_encode(value, SET)`.
Total, byte by byte. -/
def encode : List Nat → List Nat
  | [] => []
  | b :: rest => encodeByte b ++ encode rest

/-- Value of a hexadecimal digit byte (0-9, A-F, a-f), if any. -/
def hexVal (b : Nat) : Option Nat :=
  if 48 ≤ b ∧ b ≤ 57 then some (b - 48)
  else if 65 ≤ b ∧ b ≤ 70 then some (b - 55)
  else if 97 ≤ b ∧ b ≤ 102 then some (b - 87)
  else none

/-- Model of `u8::is_ascii_hexdigit`. -/
def isHexDigit (b : Nat) : Bool :=
  (48 ≤ b && b ≤ 57) || (65 ≤ b && b ≤ 70) || (97 ≤ b && b ≤ 102)

/-- The `percent_decode` half of `decode` in `encoding.rs`: unescape every
valid `%XX` sequence (hex digits of either case) and pass invalid
sequences through. -/
def percentDecode : List Nat → List Nat
  | [] => []
  | b :: h1 :: h2 :: rest2 =>
    if b = PCT then
      match hexVal h1, hexVal h2 with
      | some x, some y => (16 * x + y) :: percentDecode rest2
      | _, _ => b :: percentDecode (h1 :: h2 :: rest2)
    else b :: percentDecode (h1 :: h2 :: rest2)
  | b :: rest => b :: percentDecode rest

/-- UTF-8 bytes of the Unicode replacement character U+FFFD, substituted
for invalid sequences by `decode_utf8_lossy`. -/
def REPL : List Nat := [239, 191, 189]

/-- UTF-8 continuation byte (0x80..0xBF). -/
def isCont (b : Nat) : Bool := 128 ≤ b && b ≤ 191

/-- Valid second byte of a three-byte UTF-8 sequence for lead `b`, per the
standard library's `run_utf8_validation` (excludes overlong encodings and
surrogates). -/
def valid3 (b c : Nat) : Bool :=
  (b == 224 && (160 ≤ c && c ≤ 191)) ||
  (225 ≤ b && b ≤ 236 && isCont c) ||
  (b == 237 && (128 ≤ c && c ≤ 159)) ||
  (238 ≤ b && b ≤ 239 && isCont c)

/-- Valid second byte of a four-byte UTF-8 sequence for lead `b`. -/
def valid4 (b c : Nat) : Bool :=
  (b == 240 && (144 ≤ c && c ≤ 191)) ||
  (241 ≤ b && b ≤ 243 && isCont c) ||
  (b == 244 && (128 ≤ c && c ≤ 143))

/-- Fuel-driven body of `String::from_utf8_lossy`: each invalid maximal
subpart (1..3 bytes, or the truncated sequence at the end of input) is
replaced by one U+FFFD, following the standard library's `Utf8Chunks`
semantics.  The fuel only serves structural recursion; it is called with
`fuel = w.length`, which every recursive call preserves as an upper
bound. -/
def utf8LossyF : Nat → List Nat → List Nat
  | 0, _ => []
  | _ + 1, [] => []
  | fuel + 1, b :: rest =>
    if b < 128 then b :: utf8LossyF fuel rest
    else if 194 ≤ b && b ≤ 223 then
      match rest with
      | [] => REPL
      | c :: r2 =>
        if isCont c then b :: c :: utf8LossyF fuel r2
        else REPL ++ utf8LossyF fuel (c :: r2)
    else if 224 ≤ b && b ≤ 239 then
      match rest with
      | [] => REPL
      | c :: r2 =>
        if valid3 b c then
          match r2 with
          | [] => REPL
          | d :: r3 =>
            if isCont d then b :: c :: d :: utf8LossyF fuel r3
            else REPL ++ utf8LossyF fuel (d :: r3)
        else REPL ++ utf8LossyF fuel (c :: r2)
    else if 240 ≤ b && b ≤ 244 then
      match rest with
      | [] => REPL
      | c :: r2 =>
        if valid4 b c then
          match r2 with
          | [] => REPL
          | d :: r3 =>
            if isCont d then
              match r3 with
              | [] => REPL
              | e :: r4 =>
                if isCont e then b :: c :: d :: e :: utf8LossyF fuel r4
                else REPL ++ utf8LossyF fuel (e :: r4)
            else REPL ++ utf8LossyF fuel (d :: r3)
        else REPL ++ utf8LossyF fuel (c :: r2)
    else REPL ++ utf8LossyF fuel rest

/-- Model of `decode_utf8_lossy` (`String::from_utf8_lossy`). -/
def utf8Lossy (w : List Nat) : List Nat := utf8LossyF w.length w

/-- UTF-8 validity of a byte string, mirroring `run_utf8_validation`. -/
def utf8Valid : List Nat → Bool
  | [] => true
  | b :: rest =>
    if b < 128 then utf8Valid rest
    else if 194 ≤ b && b ≤ 223 then
      match rest with
      | [] => false
      | c :: r2 => isCont c && utf8Valid r2
    else if 224 ≤ b && b ≤ 239 then
      match rest with
      | [] => false
      | c :: r2 =>
        valid3 b c &&
          match r2 with
          | [] => false
          | d :: r3 => isCont d && utf8Valid r3
    else if 240 ≤ b && b ≤ 244 then
      match rest with
      | [] => false
      | c :: r2 =>
        valid4 b c &&
          match r2 with
          | [] => false
          | d :: r3 =>
            isCont d &&
              match r3 with
              | [] => false
              | e :: r4 => isCont e && utf8Valid r4
    else false

/-- Model of `decode` in `encoding.rs`:
`percent_decode(value).decode_utf8_lossy()`. -/
def decode (w : List Nat) : List Nat := utf8Lossy (percentDecode w)

/-- Errors of `format/error.rs`. -/
inductive Error
  | cardinality
  | length
deriving DecidableEq, Repr

/-- Span of `format/span.rs`: a half-open byte range with `u16` bounds.
The Rust field `end` is called `stop` here, since `end` is a Lean keyword. -/
structure Span where
  start : Nat
  stop : Nat
deriving DecidableEq, Repr

/-- Length of a span (`Span::len`). -/
def Span.len (s : Span) : Nat := s.stop - s.start

/-- Model of `Span::shift_start`: `checked_add_signed` on the `u16` start,
failing when the result leaves `[0, 65535]`. -/
def Span.shiftStart (s : Span) (k : Int) : Except Error Span :=
  if 0 ≤ (s.start : Int) + k ∧ (s.start : Int) + k ≤ 65535 then
    .ok ⟨((s.start : Int) + k).toNat, s.stop⟩
  else .error .length

/-- Model of `Span::shift_end`: `checked_add_signed` on the `u16` end. -/
def Span.shiftEnd (s : Span) (k : Int) : Except Error Span :=
  if 0 ≤ (s.stop : Int) + k ∧ (s.stop : Int) + k ≤ 65535 then
    .ok ⟨s.start, ((s.stop : Int) + k).toNat⟩
  else .error .length

/-- Model of `Span::shift`, shifting both bounds in the source's order. -/
def Span.shift (s : Span) (k : Int) : Except Error Span :=
  if 0 ≤ k then
    match s.shiftEnd k with
    | .error e => .error e
    | .ok a => a.shiftStart k
  else
    match s.shiftStart k with
    | .error e => .error e
    | .ok a => a.shiftEnd k

/-- Formatted string of `format.rs`: byte buffer, `N` spans, flag word. -/
structure Format (N : Nat) where
  value : List Nat
  spans : List Span
  flags : Nat
deriving DecidableEq, Repr

/-- Model of `span::init`: `N` empty spans at consecutive offsets. -/
def initSpans (N : Nat) : List Span := (List.range N).map fun i => ⟨i, i⟩

/-- Model of `Format::new`: `N - 1` delimiters and the initial spans. -/
def Format.new (N : Nat) : Format N :=
  ⟨List.replicate (N - 1) DELIM, initSpans N, 0⟩

/-- Span at an index.  Rust indexes the `[Span; N]` array directly; all
claims use in-bounds indices, so out-of-bounds reads default harmlessly. -/
def spanAt {N : Nat} (f : Format N) (j : Nat) : Span := f.spans.getD j ⟨0, 0⟩

/-- Raw bytes of span `i`, the slice `&self.value[range]` of `Format::get`. -/
def Format.extract {N : Nat} (f : Format N) (i : Nat) : List Nat :=
  ((f.value.drop (spanAt f i).start).take (spanAt f i).len)

/-- Model of `Format::get`: the raw span bytes when flag `i` is clear, the
percent-decoded bytes when it is set. -/
def Format.get {N : Nat} (f : Format N) (i : Nat) : List Nat :=
  if f.flags.testBit i then decode (f.extract i) else f.extract i

/-- Model of `Format::as_str`: the whole backing buffer. -/
def Format.asStr {N : Nat} (f : Format N) : List Nat := f.value

/-- The `for i in (index + 1)..N` loop of `Format::set`: shift each span in
turn, stopping at the first error and leaving the remaining spans (and the
failing one) untouched, exactly as the in-place Rust loop does. -/
def shiftLoop : List Span → Int → List Span × Option Error
  | [], _ => ([], none)
  | s :: rest, k =>
    match s.shift k with
    | .error e => (s :: rest, some e)
    | .ok s2 =>
      let r := shiftLoop rest k
      (s2 :: r.1, r.2)

/-- Model of `Format::set`.  The returned `Format` is the state of `self`
after the call — also when an error is returned, since the Rust method
mutates in place: the flag update and the buffer splice happen before the
length checks, and the span shifts happen one by one.  The length checks
mirror `i16::try_from(value.len())` (fails when the encoded length exceeds
32767) and `checked_sub_unsigned` (fails when the delta is below -32768). -/
def Format.set {N : Nat} (f : Format N) (index : Nat) (v : List Nat) :
    Format N × Option Error :=
  let enc := encode v
  let flags2 := if v.any shouldEncode then f.flags ||| 2 ^ index
    else f.flags &&& (2 ^ 64 - 1 - 2 ^ index)
  let sp := spanAt f index
  let value2 := f.value.take sp.start ++ enc ++ f.value.drop sp.stop
  let f1 : Format N := ⟨value2, f.spans, flags2⟩
  if 32767 < enc.length then (f1, some .length)
  else
    let k : Int := (enc.length : Int) - (sp.len : Int)
    if k < -32768 then (f1, some .length)
    else
      match sp.shiftEnd k with
      | .error e => (f1, some e)
      | .ok sp2 =>
        let r := shiftLoop (f.spans.drop (index + 1)) k
        (⟨value2, f.spans.take index ++ sp2 :: r.1, flags2⟩, r.2)

/-- State of the `from_str` scan: spans written so far, flag word, start of
the current span, and current span index (`shift` is always `1 << index`). -/
structure ScanSt where
  spans : List Span
  flags : Nat
  start : Nat
  index : Nat
deriving DecidableEq, Repr

/-- Failures of the scan: a `Length` error from `u16::try_from`, or a Rust
panic from the unchecked `format.spans[index] = ...` write when the input
holds more delimiters than the schema allows. -/
inductive ScanFail
  | length
  | crash
deriving DecidableEq, Repr

/-- Lookahead of the `%` arm of `from_str`: the next two bytes are ASCII
hex digits (`bytes.get(i + 1..i + 3)`). -/
def lookaheadHex : List Nat → Bool
  | h1 :: h2 :: _ => isHexDigit h1 && isHexDigit h2
  | _ => false

/-- The flag update of the `%` arm of `from_str`: when the byte is `%`,
the flag of the current span is still clear, and the two-byte lookahead is
hexadecimal, the span is marked as percent-encoded. -/
def scanFlags (b : Nat) (rest : List Nat) (st : ScanSt) : Nat :=
  if b = PCT && !st.flags.testBit st.index && lookaheadHex rest
  then st.flags ||| 2 ^ st.index else st.flags

/-- The character loop of `Format::from_str`.  Iteration is per byte with
byte positions, which agrees with `char_indices` because `:` and `%` are
ASCII and UTF-8 continuation bytes match neither.  On a delimiter the span
is finalized (after the `u16::try_from(i)` check, and panicking — `crash` —
when `index` is out of bounds); `start = end + 1` wraps like the release
`u16` addition.  On any other byte only the flag word may change. -/
def scan (N : Nat) : List Nat → Nat → ScanSt → Except ScanFail ScanSt
  | [], _, st => .ok st
  | b :: rest, i, st =>
    if b = DELIM then
      if 65535 < i then .error .length
      else if N ≤ st.index then .error .crash
      else
        scan N rest (i + 1)
          ⟨st.spans.set st.index ⟨st.start, i⟩, st.flags, (i + 1) % 65536,
            st.index + 1⟩
    else
      scan N rest (i + 1) ⟨st.spans, scanFlags b rest st, st.start, st.index⟩

/-- Result of `Format::from_str`: a format, a typed error, or a panic. -/
inductive ParseResult (N : Nat)
  | ok (f : Format N)
  | error (e : Error)
  | crash
deriving DecidableEq, Repr

/-- Model of `Format::from_str`: run the scan from the initial state, then
finalize the last span (`u16::try_from(value.len())` first, then the
unchecked spans write, then the cardinality check). -/
def formatFromStr (N : Nat) (value : List Nat) : ParseResult N :=
  match scan N value 0 ⟨initSpans N, 0, 0, 0⟩ with
  | .error .length => .error .length
  | .error .crash => .crash
  | .ok st =>
    if 65535 < value.length then .error .length
    else if N ≤ st.index then .crash
    else if st.index = N - 1 then
      .ok ⟨value, st.spans.set st.index ⟨st.start, value.length⟩, st.flags⟩
    else .error .cardinality

/-- Model of `PartialEq for Format`: raw buffer equality. -/
def formatBEq {N : Nat} (f g : Format N) : Bool := f.value == g.value

/-- Lexicographic ordering on byte lists, the `Ord` of `Vec<u8>`. -/
def cmpList : List Nat → List Nat → Ordering
  | [], [] => .eq
  | [], _ :: _ => .lt
  | _ :: _, [] => .gt
  | a :: xs, b :: ys =>
    match Ord.compare a b with
    | .eq => cmpList xs ys
    | o => o

/-- Model of `Ord for Format`: ordering of the raw buffers. -/
def formatCmp {N : Nat} (f g : Format N) : Ordering := cmpList f.value g.value

/-- Model of `Hash for Format`: only the raw buffer is fed to the hasher,
which is abstracted as an arbitrary digest function. -/
def formatHash {N : Nat} (H : List Nat → Nat) (f : Format N) : Nat := H f.value

-- ---------------------------------------------------------------------------
-- Identifier (id.rs)
-- ---------------------------------------------------------------------------

/-- Identifier: a six-span format (`Id` in `id.rs`). -/
structure Id where
  format : Format 6
deriving DecidableEq, Repr

/-- Errors of the identifier layer: the backslash error of `path.rs`
(`Error::Backslash`), a wrapped format error, the tag error
(`Error::Prefix` in the source), and a missing required component. -/
inductive IdError
  | backslash
  | format (e : Error)
  | wrongTag
  | component (which : String)
deriving DecidableEq, Repr

/-- Model of `path::validate`: reject any value containing a backslash. -/
def validate (v : List Nat) : Except IdError (List Nat) :=
  if BSLASH ∈ v then .error .backslash else .ok v

/-- Result of fallible identifier and selector constructors: a value, a
typed error, or a propagated panic of `Format::from_str`. -/
inductive PResult (α : Type)
  | ok (a : α)
  | error (e : IdError)
  | crash
deriving DecidableEq, Repr

/-- The canonical string built by `Id::new`:
`"zri:" ++ scheme ++ "::" ++ context ++ ":" ++ path ++ ":"`, with each
component validated and percent-encoded. -/
def canonical (scheme context path : List Nat) : List Nat :=
  strB "zri:" ++ encode scheme ++ (strB "::" ++ (encode context ++
    ([DELIM] ++ (encode path ++ [DELIM]))))

/-- Model of `Id::new`: validate and encode the three components, build the
canonical string, and parse it as a `Format<6>`. -/
def Id.new (scheme context path : List Nat) : PResult Id :=
  match validate scheme with
  | .error e => .error e
  | .ok scheme =>
    match validate context with
    | .error e => .error e
    | .ok context =>
      match validate path with
      | .error e => .error e
      | .ok path =>
        match formatFromStr 6 (canonical scheme context path) with
        | .ok f => .ok ⟨f⟩
        | .error e => .error (.format e)
        | .crash => .crash

/-- Model of `FromStr for Id`: validate, parse, check the `zri` tag, and
check that scheme, context and path are non-empty. -/
def Id.fromStr (value : List Nat) : PResult Id :=
  match validate value with
  | .error e => .error e
  | .ok v =>
    match formatFromStr 6 v with
    | .crash => .crash
    | .error e => .error (.format e)
    | .ok f =>
      if f.get 0 ≠ strB "zri" then .error .wrongTag
      else if f.get 1 = [] then .error (.component "scheme")
      else if f.get 3 = [] then .error (.component "context")
      else if f.get 4 = [] then .error (.component "path")
      else .ok ⟨f⟩

/-- Accessor `Id::scheme`. -/
def Id.scheme (id : Id) : List Nat := id.format.get 1

/-- Accessor `Id::binding`: `None` exactly when the decoded value is empty. -/
def Id.binding (id : Id) : Option (List Nat) :=
  if id.format.get 2 = [] then none else some (id.format.get 2)

/-- Accessor `Id::context`. -/
def Id.context (id : Id) : List Nat := id.format.get 3

/-- Accessor `Id::path`. -/
def Id.path (id : Id) : List Nat := id.format.get 4

/-- Accessor `Id::fragment`. -/
def Id.fragment (id : Id) : Option (List Nat) :=
  if id.format.get 5 = [] then none else some (id.format.get 5)

/-- Setter `Id::set_scheme`: validate, then `format.set(1, value)`.  The
returned `Id` is the state after the call. -/
def Id.setScheme (id : Id) (v : List Nat) : Id × Option IdError :=
  match validate v with
  | .error e => (id, some e)
  | .ok v =>
    let r := id.format.set 1 v
    (⟨r.1⟩, r.2.map .format)

/-- Setter `Id::set_binding`. -/
def Id.setBinding (id : Id) (v : List Nat) : Id × Option IdError :=
  match validate v with
  | .error e => (id, some e)
  | .ok v =>
    let r := id.format.set 2 v
    (⟨r.1⟩, r.2.map .format)

/-- Setter `Id::set_context`. -/
def Id.setContext (id : Id) (v : List Nat) : Id × Option IdError :=
  match validate v with
  | .error e => (id, some e)
  | .ok v =>
    let r := id.format.set 3 v
    (⟨r.1⟩, r.2.map .format)

/-- Setter `Id::set_path`. -/
def Id.setPath (id : Id) (v : List Nat) : Id × Option IdError :=
  match validate v with
  | .error e => (id, some e)
  | .ok v =>
    let r := id.format.set 4 v
    (⟨r.1⟩, r.2.map .format)

/-- Setter `Id::set_fragment`. -/
def Id.setFragment (id : Id) (v : List Nat) : Id × Option IdError :=
  match validate v with
  | .error e => (id, some e)
  | .ok v =>
    let r := id.format.set 5 v
    (⟨r.1⟩, r.2.map .format)

/-- Derived `PartialEq for Id`: format (hence raw buffer) equality. -/
def idBEq (a b : Id) : Bool := formatBEq a.format b.format

/-- Derived `Ord for Id`. -/
def idCmp (a b : Id) : Ordering := formatCmp a.format b.format

/-- Derived `Hash for Id`. -/
def idHash (H : List Nat → Nat) (a : Id) : Nat := formatHash H a.format

-- ---------------------------------------------------------------------------
-- Selector (matcher/selector.rs)
-- ---------------------------------------------------------------------------

/-- Selector: a six-span format with the `zrs` tag. -/
structure Selector where
  format : Format 6
deriving DecidableEq, Repr

/-- Model of `FromStr for Selector`: validate, parse, check the `zrs` tag. -/
def Selector.fromStr (value : List Nat) : PResult Selector :=
  match validate value with
  | .error e => .error e
  | .ok v =>
    match formatFromStr 6 v with
    | .crash => .crash
    | .error e => .error (.format e)
    | .ok f =>
      if f.get 0 ≠ strB "zrs" then .error .wrongTag
      else .ok ⟨f⟩

/-- Model of `Selector::new`: parse the all-wildcard string `zrs:::::`. -/
def Selector.new : PResult Selector :=
  match formatFromStr 6 (strB "zrs:::::") with
  | .ok f => .ok ⟨f⟩
  | .error e => .error (.format e)
  | .crash => .crash

/-- Accessor `Selector::scheme`: `None` when empty (wildcard). -/
def Selector.scheme (s : Selector) : Option (List Nat) :=
  if s.format.get 1 = [] then none else some (s.format.get 1)

/-- Accessor `Selector::binding`. -/
def Selector.binding (s : Selector) : Option (List Nat) :=
  if s.format.get 2 = [] then none else some (s.format.get 2)

/-- Accessor `Selector::context`. -/
def Selector.context (s : Selector) : Option (List Nat) :=
  if s.format.get 3 = [] then none else some (s.format.get 3)

/-- Accessor `Selector::path`. -/
def Selector.path (s : Selector) : Option (List Nat) :=
  if s.format.get 4 = [] then none else some (s.format.get 4)

/-- Accessor `Selector::fragment`. -/
def Selector.fragment (s : Selector) : Option (List Nat) :=
  if s.format.get 5 = [] then none else some (s.format.get 5)

/-- Setter `Selector::set_scheme`. -/
def Selector.setScheme (s : Selector) (v : List Nat) :
    Selector × Option IdError :=
  match validate v with
  | .error e => (s, some e)
  | .ok v =>
    let r := s.format.set 1 v
    (⟨r.1⟩, r.2.map .format)

/-- Setter `Selector::set_binding`. -/
def Selector.setBinding (s : Selector) (v : List Nat) :
    Selector × Option IdError :=
  match validate v with
  | .error e => (s, some e)
  | .ok v =>
    let r := s.format.set 2 v
    (⟨r.1⟩, r.2.map .format)

/-- Setter `Selector::set_context`. -/
def Selector.setContext (s : Selector) (v : List Nat) :
    Selector × Option IdError :=
  match validate v with
  | .error e => (s, some e)
  | .ok v =>
    let r := s.format.set 3 v
    (⟨r.1⟩, r.2.map .format)

/-- Setter `Selector::set_path`. -/
def Selector.setPath (s : Selector) (v : List Nat) :
    Selector × Option IdError :=
  match validate v with
  | .error e => (s, some e)
  | .ok v =>
    let r := s.format.set 4 v
    (⟨r.1⟩, r.2.map .format)

/-- Setter `Selector::set_fragment`. -/
def Selector.setFragment (s : Selector) (v : List Nat) :
    Selector × Option IdError :=
  match validate v with
  | .error e => (s, some e)
  | .ok v =>
    let r := s.format.set 5 v
    (⟨r.1⟩, r.2.map .format)

/-- Derived `PartialEq for Selector`. -/
def selBEq (a b : Selector) : Bool := formatBEq a.format b.format

-- ---------------------------------------------------------------------------
-- Matcher (matcher.rs, matcher/builder.rs)
-- ---------------------------------------------------------------------------

/-- A compiled glob of the external `globset` crate, abstracted as a
predicate on byte strings. -/
abbrev Pat := List Nat → Bool

/-- UTF-8 bytes of the non-character U+FFFE used as the absent-component
sentinel in `Matcher::is_match`. -/
def SENTINEL : List Nat := [239, 191, 190]

/-- Matcher: five compiled glob sets, one per component.  A `GlobSet` is a
list of compiled globs; `GlobSet::matches` returns the indices of the
matching globs in insertion order. -/
structure Matcher where
  scheme : List Pat
  binding : List Pat
  context : List Pat
  path : List Pat
  fragment : List Pat

/-- `GlobSet::matches`: indices of the globs matching a value, ascending. -/
def globSetMatches (c : List Pat) (w : List Nat) : List Nat :=
  (List.range c.length).filter fun j => c.getD j (fun _ => false) w

/-- The `slots[index] += 1` loop of `Matcher::matches` over a match set:
since the match set lists distinct indices, it increments each slot whose
index is in the set. -/
def bumpFrom : List Nat → List Nat → Nat → List Nat
  | [], _, _ => []
  | x :: rest, ms, j => (if j ∈ ms then x + 1 else x) :: bumpFrom rest ms (j + 1)

/-- One component of the `Matcher::matches` loop: a present value either
bumps the matching slots or short-circuits when nothing matches; an absent
value bumps every slot (wildcard pass). -/
def stepComponent (c : List Pat) (v : Option (List Nat)) (slots : List Nat) :
    Option (List Nat) :=
  match v with
  | some w =>
    let ms := globSetMatches c w
    if ms.isEmpty then none else some (bumpFrom slots ms 0)
  | none => some (slots.map (· + 1))

/-- The five-component loop of `Matcher::matches`; `none` is the
short-circuited empty result. -/
def matchesLoop : List (List Pat × Option (List Nat)) → List Nat →
    Option (List Nat)
  | [], slots => some slots
  | (c, v) :: rest, slots =>
    match stepComponent c v slots with
    | none => none
    | some s2 => matchesLoop rest s2

/-- The component/value pairs of `Matcher::matches` in source order:
path, context, scheme, binding, fragment. -/
def fivePairs (m : Matcher) (id : Id) : List (List Pat × Option (List Nat)) :=
  [(m.path, some id.path), (m.context, some id.context),
   (m.scheme, some id.scheme), (m.binding, id.binding),
   (m.fragment, id.fragment)]

/-- Model of `Matcher::matches`: count per-selector matches over the five
components and keep the indices whose count reaches five. -/
def Matcher.matches (m : Matcher) (id : Id) : List Nat :=
  match matchesLoop (fivePairs m id) (List.replicate m.scheme.length 0) with
  | none => []
  | some slots =>
    slots.enum.filterMap fun x => if x.2 = 5 then some x.1 else none

/-- Model of the free function `compare` of `matcher.rs`: test the value,
or the sentinel when the value is absent, against the glob set. -/
def compare (c : List Pat) (v : Option (List Nat)) : Bool :=
  c.any fun p => p (v.getD SENTINEL)

/-- Model of `Matcher::is_match`: the five component tests in source
order, conjoined. -/
def Matcher.isMatch (m : Matcher) (id : Id) : Bool :=
  compare m.path (some id.path) && compare m.context (some id.context) &&
  compare m.scheme (some id.scheme) && compare m.binding id.binding &&
  compare m.fragment id.fragment

/-- Matcher built by folding `Builder::add` over a selector list and
calling `build`: `add` appends one compiled glob per component, coercing an
absent component to the universal pattern `**`, so each component list is
the map of the compiled component over the selectors (glob indices are
insertion order).  `compile` abstracts `Glob::new` + compilation. -/
def buildMatcher (compile : List Nat → Pat) (sels : List Selector) : Matcher :=
  { scheme := sels.map fun s => compile ((Selector.scheme s).getD (strB "**"))
    binding := sels.map fun s => compile ((Selector.binding s).getD (strB "**"))
    context := sels.map fun s => compile ((Selector.context s).getD (strB "**"))
    path := sels.map fun s => compile ((Selector.path s).getD (strB "**"))
    fragment :=
      sels.map fun s => compile ((Selector.fragment s).getD (strB "**")) }

/-- Whether selector slot `k` passes one component of `Matcher::matches`:
an absent identifier component passes unconditionally, a present one must
match the `k`-th glob of the component's set. -/
def passOne (c : List Pat) (v : Option (List Nat)) (k : Nat) : Bool :=
  match v with
  | none => true
  | some w => c.getD k (fun _ => false) w

/-- Spec-side predicate (C1): all five components of one selector
individually satisfy glob matching against the identifier, an optional
component absent from the identifier counting as a universal wildcard
match. -/
def hitsAll (compile : List Nat → Pat) (sel : Selector) (id : Id) : Bool :=
  compile ((Selector.path sel).getD (strB "**")) id.path &&
  compile ((Selector.context sel).getD (strB "**")) id.context &&
  compile ((Selector.scheme sel).getD (strB "**")) id.scheme &&
  (match id.binding with
   | none => true
   | some w => compile ((Selector.binding sel).getD (strB "**")) w) &&
  (match id.fragment with
   | none => true
   | some w => compile ((Selector.fragment sel).getD (strB "**")) w)

/-- Spec-side value (C1): the ascending list of selector indices whose
five components all individually match the identifier. -/
def expectedMatches (compile : List Nat → Pat) (sels : List Selector)
    (id : Id) : List Nat :=
  sels.enum.filterMap fun x =>
    if hitsAll compile x.2 id then some x.1 else none

/-- Spec-side predicate (C1, corrected reading of `is_match`): each of the
five components is matched by the corresponding glob of at least one
selector, an absent identifier component being replaced by the U+FFFE
sentinel. -/
def expectedIsMatch (compile : List Nat → Pat) (sels : List Selector)
    (id : Id) : Prop :=
  (∃ s ∈ sels, compile ((Selector.path s).getD (strB "**")) id.path
    = true) ∧
  (∃ s ∈ sels, compile ((Selector.context s).getD (strB "**")) id.context
    = true) ∧
  (∃ s ∈ sels, compile ((Selector.scheme s).getD (strB "**")) id.scheme
    = true) ∧
  (∃ s ∈ sels, compile ((Selector.binding s).getD (strB "**"))
    (id.binding.getD SENTINEL) = true) ∧
  (∃ s ∈ sels, compile ((Selector.fragment s).getD (strB "**"))
    (id.fragment.getD SENTINEL) = true)

-- ---------------------------------------------------------------------------
-- Well-formedness of a format
-- ---------------------------------------------------------------------------

/-- Well-formed format: the structural invariant maintained by parsing and
mutation — `N` contiguous, ordered spans covering a buffer of at most
65535 bytes, with no delimiter inside any span's content. -/
structure Wf {N : Nat} (f : Format N) : Prop where
  npos : 0 < N
  len_spans : f.spans.length = N
  first : (spanAt f 0).start = 0
  contig : ∀ j, j < N - 1 → (spanAt f j).stop + 1 = (spanAt f (j + 1)).start
  ordered : ∀ j, j < N → (spanAt f j).start ≤ (spanAt f j).stop
  last : (spanAt f (N - 1)).stop = f.value.length
  small : f.value.length ≤ 65535
  noDelim : ∀ j, j < N → DELIM ∉ f.extract j

-- ---------------------------------------------------------------------------
-- Encoding lemmas
-- ---------------------------------------------------------------------------

theorem hexDigit_lt (n : Nat) (h : n < 16) : 48 ≤ hexDigit n ∧ hexDigit n ≤ 70 := by
  unfold hexDigit; split <;> omega

theorem hexDigit_ne_delim (n : Nat) : hexDigit n ≠ DELIM := by
  unfold hexDigit DELIM; split <;> omega

theorem delim_not_mem_encodeByte (b : Nat) : DELIM ∉ encodeByte b := by
  unfold encodeByte
  split
  · intro hm
    simp only [List.mem_cons, List.mem_singleton, List.not_mem_nil] at hm
    rcases hm with h | h | h | h
    · simp [DELIM, PCT] at h
    · exact hexDigit_ne_delim _ h.symm
    · exact hexDigit_ne_delim _ h.symm
    · exact h
  · next h =>
    intro hm
    simp only [List.mem_singleton] at hm
    rw [← hm] at h
    simp [shouldEncode] at h

theorem delim_not_mem_encode (v : List Nat) : DELIM ∉ encode v := by
  induction v with
  | nil => simp [encode]
  | cons b rest ih =>
    simp only [encode, List.mem_append]
    rintro (h | h)
    · exact delim_not_mem_encodeByte b h
    · exact ih h

theorem encode_eq_self (v : List Nat) (h : ∀ b ∈ v, shouldEncode b = false) :
    encode v = v := by
  induction v with
  | nil => rfl
  | cons b rest ih =>
    have hb : shouldEncode b = false := h b (List.mem_cons_self b rest)
    simp only [encode, encodeByte, hb, Bool.false_eq_true, if_false,
      List.singleton_append, List.cons.injEq, true_and]
    exact ih fun x hx => h x (List.mem_cons_of_mem b hx)

theorem encode_ne_nil (v : List Nat) (h : v ≠ []) : encode v ≠ [] := by
  match v with
  | b :: rest =>
    simp only [encode, ne_eq, List.append_eq_nil, not_and]
    intro hB
    exfalso
    unfold encodeByte at hB
    split at hB <;> simp at hB

theorem bslash_not_mem_encodeByte (b : Nat) (hb : b < 256) (h : b ≠ BSLASH) :
    BSLASH ∉ encodeByte b := by
  unfold encodeByte
  split
  · intro hm
    simp only [List.mem_cons, List.mem_singleton, List.not_mem_nil] at hm
    have h1 := hexDigit_lt (b / 16) (by omega)
    have h2 := hexDigit_lt (b % 16) (by omega)
    rcases hm with hx | hx | hx | hx
    · simp [BSLASH, PCT] at hx
    · unfold BSLASH at hx; omega
    · unfold BSLASH at hx; omega
    · exact hx
  · intro hm
    simp only [List.mem_singleton] at hm
    exact h hm.symm

theorem bslash_not_mem_encode (v : List Nat) (hb : ∀ b ∈ v, b < 256)
    (h : BSLASH ∉ v) : BSLASH ∉ encode v := by
  induction v with
  | nil => simp [encode]
  | cons b rest ih =>
    simp only [encode, List.mem_append]
    rintro (hx | hx)
    · exact bslash_not_mem_encodeByte b (hb b (List.mem_cons_self b rest))
        (fun hbb => h (hbb ▸ List.mem_cons_self b rest)) hx
    · exact ih (fun x hxm => hb x (List.mem_cons_of_mem b hxm))
        (fun hxm => h (List.mem_cons_of_mem b hxm)) hx

theorem hexVal_hexDigit (n : Nat) (h : n < 16) : hexVal (hexDigit n) = some n := by
  interval_cases n <;> rfl

theorem percentDecode_cons_ne_pct (b : Nat) (w : List Nat) (h : b ≠ PCT) :
    percentDecode (b :: w) = b :: percentDecode w := by
  match w with
  | [] => rfl
  | [x] => rfl
  | x :: y :: t => simp only [percentDecode, if_neg h]

theorem percentDecode_pct_hex (h1 h2 : Nat) (t : List Nat) (x y : Nat)
    (hx : hexVal h1 = some x) (hy : hexVal h2 = some y) :
    percentDecode (PCT :: h1 :: h2 :: t) =
      (16 * x + y) :: percentDecode t := by
  simp only [percentDecode, if_pos rfl, hx, hy, if_true]

theorem percentDecode_no_pct (w : List Nat) (h : PCT ∉ w) :
    percentDecode w = w := by
  induction w with
  | nil => rfl
  | cons b rest ih =>
    have hb : b ≠ PCT := fun hbb => h (hbb ▸ List.mem_cons_self b rest)
    rw [percentDecode_cons_ne_pct b rest hb,
      ih fun hm => h (List.mem_cons_of_mem b hm)]

theorem percentDecode_ne_nil (w : List Nat) (h : w ≠ []) :
    percentDecode w ≠ [] := by
  match w with
  | [b] => simp [percentDecode]
  | [b, x] => simp [percentDecode]
  | b :: x :: y :: t =>
    by_cases hb : b = PCT
    · subst hb
      simp only [percentDecode, if_pos rfl]
      rcases hx : hexVal x with _ | vx <;> rcases hy : hexVal y with _ | vy <;>
        simp
    · rw [percentDecode_cons_ne_pct b _ hb]; simp

theorem percentDecode_encode (v : List Nat) (hb : ∀ b ∈ v, b < 256)
    (h : PCT ∉ v) : percentDecode (encode v) = v := by
  induction v with
  | nil => rfl
  | cons b rest ih =>
    have hblt : b < 256 := hb b (List.mem_cons_self b rest)
    have hbp : b ≠ PCT := fun hbb => h (hbb ▸ List.mem_cons_self b rest)
    have ih2 := ih (fun x hx => hb x (List.mem_cons_of_mem b hx))
      (fun hx => h (List.mem_cons_of_mem b hx))
    simp only [encode, encodeByte]
    split
    · rw [List.cons_append, List.cons_append, List.cons_append,
        List.nil_append,
        percentDecode_pct_hex _ _ _ (b / 16) (b % 16)
          (hexVal_hexDigit _ (by omega)) (hexVal_hexDigit _ (by omega)), ih2]
      congr 1
      omega
    · rw [List.singleton_append, percentDecode_cons_ne_pct b _ hbp, ih2]

theorem utf8LossyF_valid : ∀ (fuel : Nat) (w : List Nat),
    w.length ≤ fuel → utf8Valid w = true → utf8LossyF fuel w = w := by
  intro fuel
  induction fuel with
  | zero =>
    intro w hl _
    have hw : w = [] := List.eq_nil_of_length_eq_zero (Nat.le_zero.mp hl)
    subst hw
    rfl
  | succ n ih =>
    intro w hl hv
    match w with
    | [] => rfl
    | b :: rest =>
      unfold utf8Valid at hv
      simp only [utf8LossyF]
      split_ifs at hv ⊢ with hb h2 h3 h4
      · rw [ih rest (by simpa using hl) hv]
      · cases rest with
        | nil => simp at hv
        | cons c r2 =>
          dsimp only at hv ⊢
          rw [Bool.and_eq_true] at hv
          obtain ⟨hc, hv2⟩ := hv
          rw [if_pos hc, ih r2 (by simp at hl ⊢; omega) hv2]
      · cases rest with
        | nil => simp at hv
        | cons c r2 =>
          dsimp only at hv ⊢
          rw [Bool.and_eq_true] at hv
          obtain ⟨hc, hv2⟩ := hv
          rw [if_pos hc]
          cases r2 with
          | nil => simp at hv2
          | cons d r3 =>
            dsimp only at hv2 ⊢
            rw [Bool.and_eq_true] at hv2
            obtain ⟨hd, hv3⟩ := hv2
            rw [if_pos hd, ih r3 (by simp at hl ⊢; omega) hv3]
      · cases rest with
        | nil => simp at hv
        | cons c r2 =>
          dsimp only at hv ⊢
          rw [Bool.and_eq_true] at hv
          obtain ⟨hc, hv2⟩ := hv
          rw [if_pos hc]
          cases r2 with
          | nil => simp at hv2
          | cons d r3 =>
            dsimp only at hv2 ⊢
            rw [Bool.and_eq_true] at hv2
            obtain ⟨hd, hv3⟩ := hv2
            rw [if_pos hd]
            cases r3 with
            | nil => simp at hv3
            | cons e r4 =>
              dsimp only at hv3 ⊢
              rw [Bool.and_eq_true] at hv3
              obtain ⟨he, hv4⟩ := hv3
              rw [if_pos he, ih r4 (by simp at hl ⊢; omega) hv4]

theorem utf8Lossy_valid (w : List Nat) (hv : utf8Valid w = true) :
    utf8Lossy w = w :=
  utf8LossyF_valid w.length w le_rfl hv

theorem utf8Valid_ascii (w : List Nat) (h : ∀ b ∈ w, b < 128) :
    utf8Valid w = true := by
  induction w with
  | nil => rfl
  | cons b rest ih =>
    unfold utf8Valid
    rw [if_pos (h b (List.mem_cons_self b rest))]
    exact ih fun x hx => h x (List.mem_cons_of_mem b hx)

theorem utf8LossyF_ne_nil : ∀ (fuel : Nat) (b : Nat) (rest : List Nat),
    utf8LossyF (fuel + 1) (b :: rest) ≠ [] := by
  intro fuel b rest
  simp only [utf8LossyF]
  split_ifs with hb h2 h3 h4
  · simp
  · split
    · simp [REPL]
    · split <;> simp [REPL]
  · split
    · simp [REPL]
    · split
      · split
        · simp [REPL]
        · split <;> simp [REPL]
      · simp [REPL]
  · split
    · simp [REPL]
    · split
      · split
        · simp [REPL]
        · split
          · split
            · simp [REPL]
            · split <;> simp [REPL]
          · simp [REPL]
      · simp [REPL]
  · simp [REPL]

theorem utf8Lossy_ne_nil (w : List Nat) (h : w ≠ []) : utf8Lossy w ≠ [] := by
  match w with
  | b :: rest => exact utf8LossyF_ne_nil rest.length b rest

theorem decode_ne_nil (w : List Nat) (h : w ≠ []) : decode w ≠ [] :=
  utf8Lossy_ne_nil _ (percentDecode_ne_nil w h)

theorem decode_ascii_no_pct (w : List Nat) (h : PCT ∉ w)
    (ha : ∀ b ∈ w, b < 128) : decode w = w := by
  unfold decode
  rw [percentDecode_no_pct w h, utf8Lossy_valid w (utf8Valid_ascii w ha)]

theorem decode_encode (v : List Nat) (hb : ∀ b ∈ v, b < 256) (h : PCT ∉ v)
    (hu : utf8Valid v = true) : decode (encode v) = v := by
  unfold decode
  rw [percentDecode_encode v hb h, utf8Lossy_valid v hu]

-- ---------------------------------------------------------------------------
-- List utilities
-- ---------------------------------------------------------------------------

theorem getD_drop {α : Type} (l : List α) (i j : Nat) (d : α) :
    (l.drop i).getD j d = l.getD (i + j) d := by
  simp [List.getD_eq_getElem?_getD, List.getElem?_drop]

theorem getD_take_lt {α : Type} (l : List α) (i j : Nat) (d : α) (h : j < i) :
    (l.take i).getD j d = l.getD j d := by
  simp [List.getD_eq_getElem?_getD, List.getElem?_take, h]

theorem seg_at (pre seg post : List Nat) :
    ((pre ++ (seg ++ post)).drop pre.length).take seg.length = seg := by
  rw [List.drop_left, List.take_left]

theorem span_decomp {α : Type} (l : List α) (s e : Nat) (h1 : s ≤ e) :
    l = l.take s ++ ((l.drop s).take (e - s) ++ l.drop e) := by
  have ht : l.take e = l.take s ++ (l.drop s).take (e - s) := by
    rw [← List.take_add]
    congr 1
    omega
  conv_lhs => rw [← List.take_append_drop e l]
  rw [ht, List.append_assoc]

theorem take_drop_far {α : Type} (a b : List α) (u v : Nat)
    (h : u + v ≤ a.length) : ((a ++ b).drop u).take v = (a.drop u).take v := by
  have hd : (a ++ b).drop u = a.drop u ++ b := List.drop_append_of_le_length (by omega)
  rw [hd, List.take_append_of_le_length]
  simp
  omega
-- ---------------------------------------------------------------------------
-- Span-shift lemmas
-- ---------------------------------------------------------------------------

theorem shiftEnd_ok_spec (s : Span) (k : Int) (s2 : Span)
    (h : s.shiftEnd k = .ok s2) :
    0 ≤ (s.stop : Int) + k ∧ (s.stop : Int) + k ≤ 65535 ∧
    s2.start = s.start ∧ ((s2.stop : Int) = (s.stop : Int) + k) := by
  unfold Span.shiftEnd at h
  split at h
  · next hc =>
    cases h
    exact ⟨hc.1, hc.2, rfl, Int.toNat_of_nonneg hc.1⟩
  · exact absurd h (by simp)

theorem shiftStart_ok_spec (s : Span) (k : Int) (s2 : Span)
    (h : s.shiftStart k = .ok s2) :
    0 ≤ (s.start : Int) + k ∧ (s.start : Int) + k ≤ 65535 ∧
    s2.stop = s.stop ∧ ((s2.start : Int) = (s.start : Int) + k) := by
  unfold Span.shiftStart at h
  split at h
  · next hc =>
    cases h
    exact ⟨hc.1, hc.2, rfl, Int.toNat_of_nonneg hc.1⟩
  · exact absurd h (by simp)

theorem shiftEnd_err (s : Span) (k : Int) (e : Error)
    (h : s.shiftEnd k = .error e) : e = .length := by
  unfold Span.shiftEnd at h
  split at h
  · exact absurd h (by simp)
  · cases h
    rfl

theorem shiftStart_err (s : Span) (k : Int) (e : Error)
    (h : s.shiftStart k = .error e) : e = .length := by
  unfold Span.shiftStart at h
  split at h
  · exact absurd h (by simp)
  · cases h
    rfl

theorem shift_ok_spec (s : Span) (k : Int) (s2 : Span) (h : s.shift k = .ok s2) :
    0 ≤ (s.start : Int) + k ∧ (s.start : Int) + k ≤ 65535 ∧
    0 ≤ (s.stop : Int) + k ∧ (s.stop : Int) + k ≤ 65535 ∧
    ((s2.start : Int) = (s.start : Int) + k) ∧
    ((s2.stop : Int) = (s.stop : Int) + k) := by
  unfold Span.shift at h
  split at h
  · split at h
    · exact absurd h (by simp)
    · next a ha =>
      obtain ⟨e1, e2, e3, e4⟩ := shiftEnd_ok_spec s k a ha
      obtain ⟨f1, f2, f3, f4⟩ := shiftStart_ok_spec a k s2 h
      rw [e3] at f1 f2 f4
      refine ⟨f1, f2, e1, e2, f4, ?_⟩
      rw [f3, e4]
  · split at h
    · exact absurd h (by simp)
    · next a ha =>
      obtain ⟨e1, e2, e3, e4⟩ := shiftStart_ok_spec s k a ha
      obtain ⟨f1, f2, f3, f4⟩ := shiftEnd_ok_spec a k s2 h
      rw [e3] at f1 f2 f4
      refine ⟨e1, e2, f1, f2, ?_, f4⟩
      rw [f3, e4]

theorem shift_err (s : Span) (k : Int) (e : Error) (h : s.shift k = .error e) :
    e = .length := by
  unfold Span.shift at h
  split at h
  · split at h
    · next e2 he =>
      cases h
      exact shiftEnd_err _ _ _ he
    · next a ha => exact shiftStart_err _ _ _ h
  · split at h
    · next e2 he =>
      cases h
      exact shiftStart_err _ _ _ he
    · next a ha => exact shiftEnd_err _ _ _ h

theorem shiftLoop_ok (l : List Span) (k : Int) (l2 : List Span)
    (h : shiftLoop l k = (l2, none)) :
    l2.length = l.length ∧
    ∀ j, j < l.length →
      0 ≤ ((l.getD j ⟨0, 0⟩).start : Int) + k ∧
      ((l.getD j ⟨0, 0⟩).stop : Int) + k ≤ 65535 ∧
      ((l2.getD j ⟨0, 0⟩).start : Int) = ((l.getD j ⟨0, 0⟩).start : Int) + k ∧
      ((l2.getD j ⟨0, 0⟩).stop : Int) = ((l.getD j ⟨0, 0⟩).stop : Int) + k := by
  induction l generalizing l2 with
  | nil =>
    simp only [shiftLoop, Prod.mk.injEq] at h
    rw [← h.1]
    refine ⟨rfl, ?_⟩
    intro j hj
    simp at hj
  | cons s rest ih =>
    simp only [shiftLoop] at h
    cases hs : s.shift k with
    | error e => rw [hs] at h; simp at h
    | ok s2 =>
      rw [hs] at h
      simp only [Prod.mk.injEq] at h
      obtain ⟨h1, h2⟩ := h
      have hrest : shiftLoop rest k = ((shiftLoop rest k).1, none) := by
        rw [← h2]
      obtain ⟨hlen, hall⟩ := ih (shiftLoop rest k).1 hrest
      obtain ⟨a1, a2, a3, a4, a5, a6⟩ := shift_ok_spec s k s2 hs
      rw [← h1]
      refine ⟨by simp [hlen], ?_⟩
      intro j hj
      cases j with
      | zero => simpa using ⟨a1, a4, a5, a6⟩
      | succ j2 =>
        simp only [List.getD_cons_succ]
        exact hall j2 (by simpa using hj)

theorem shiftLoop_err (l : List Span) (k : Int) (e : Error)
    (h : (shiftLoop l k).2 = some e) : e = .length := by
  induction l with
  | nil => simp [shiftLoop] at h
  | cons s rest ih =>
    simp only [shiftLoop] at h
    cases hs : s.shift k with
    | error e2 =>
      rw [hs] at h
      simp only [Option.some.injEq] at h
      rw [← h]
      exact shift_err _ _ _ hs
    | ok s2 =>
      rw [hs] at h
      exact ih h

-- ---------------------------------------------------------------------------
-- Characterization of Format.set
-- ---------------------------------------------------------------------------

/-- Behaviour of a successful `set`: the encoded length checks passed, the
buffer was spliced at the old span, spans before `index` kept their bounds,
span `index` kept its start and holds the new length, and every later span
was shifted by the delta, within the `u16` range. -/
theorem set_ok_spec {N : Nat} (f : Format N) (i : Nat) (v : List Nat)
    (f2 : Format N) (hlen : f.spans.length = N) (hi : i < N)
    (h : f.set i v = (f2, none)) :
    (encode v).length ≤ 32767 ∧
    f2.value =
      f.value.take (spanAt f i).start ++ encode v ++
        f.value.drop (spanAt f i).stop ∧
    f2.flags = (if v.any shouldEncode then f.flags ||| 2 ^ i
      else f.flags &&& (2 ^ 64 - 1 - 2 ^ i)) ∧
    f2.spans.length = N ∧
    (∀ j, j < i → spanAt f2 j = spanAt f j) ∧
    (spanAt f2 i).start = (spanAt f i).start ∧
    ((spanAt f2 i).stop : Int) =
      (spanAt f i).stop +
        (((encode v).length : Int) - ((spanAt f i).len : Int)) ∧
    (spanAt f2 i).stop ≤ 65535 ∧
    (∀ j, i < j → j < N →
      ((spanAt f2 j).start : Int) =
        (spanAt f j).start +
          (((encode v).length : Int) - ((spanAt f i).len : Int)) ∧
      ((spanAt f2 j).stop : Int) =
        (spanAt f j).stop +
          (((encode v).length : Int) - ((spanAt f i).len : Int)) ∧
      (spanAt f2 j).stop ≤ 65535) := by
  simp only [Format.set] at h
  split at h
  · simp at h
  · next hko =>
    split at h
    · simp at h
    · next hk2 =>
      split at h
      · simp at h
      · next sp2 hse =>
        simp only [Prod.mk.injEq] at h
        obtain ⟨h1, h2⟩ := h
        have hloop : shiftLoop (f.spans.drop (i + 1))
            (((encode v).length : Int) - ((spanAt f i).len : Int)) =
            ((shiftLoop (f.spans.drop (i + 1))
              (((encode v).length : Int) - ((spanAt f i).len : Int))).1,
              none) := by
          rw [← h2]
        obtain ⟨hllen, hlall⟩ := shiftLoop_ok _ _ _ hloop
        obtain ⟨e1, e2, e3, e4⟩ := shiftEnd_ok_spec _ _ _ hse
        have hval : f2.value =
            f.value.take (spanAt f i).start ++ encode v ++
              f.value.drop (spanAt f i).stop := by
          rw [← h1]
        have hfl : f2.flags = (if v.any shouldEncode then f.flags ||| 2 ^ i
            else f.flags &&& (2 ^ 64 - 1 - 2 ^ i)) := by
          rw [← h1]
        have hsp : f2.spans = f.spans.take i ++ sp2 ::
            (shiftLoop (f.spans.drop (i + 1))
              (((encode v).length : Int) - ((spanAt f i).len : Int))).1 := by
          rw [← h1]
        have htake : (f.spans.take i).length = i := by
          simp [hlen]
          omega
        have hdlen : (f.spans.drop (i + 1)).length = N - (i + 1) := by
          simp [hlen]
        refine ⟨by omega, hval, hfl, ?_, ?_, ?_, ?_, ?_, ?_⟩
        · rw [hsp]
          simp only [List.length_append, List.length_cons, htake, hllen, hdlen]
          omega
        · intro j hj
          simp only [spanAt]
          rw [hsp, List.getD_append _ _ _ j (by rw [htake]; omega),
            getD_take_lt _ _ _ _ hj]
        · simp only [spanAt]
          rw [hsp, List.getD_append_right (f.spans.take i) _ ⟨0, 0⟩ i htake.le,
            htake]
          simp only [Nat.sub_self, List.getD_cons_zero]
          exact e3
        · simp only [spanAt]
          rw [hsp, List.getD_append_right (f.spans.take i) _ ⟨0, 0⟩ i htake.le,
            htake]
          simp only [Nat.sub_self, List.getD_cons_zero]
          exact e4
        · simp only [spanAt]
          rw [hsp, List.getD_append_right (f.spans.take i) _ ⟨0, 0⟩ i htake.le,
            htake]
          simp only [Nat.sub_self, List.getD_cons_zero]
          omega
        · intro j hij hjN
          have hidx : j - i - 1 < (f.spans.drop (i + 1)).length := by
            rw [hdlen]
            omega
          have horig : (f.spans.drop (i + 1)).getD (j - i - 1) ⟨0, 0⟩ =
              f.spans.getD j ⟨0, 0⟩ := by
            rw [getD_drop]
            congr 1
            omega
          obtain ⟨b1, b2, b3, b4⟩ := hlall (j - i - 1) hidx
          rw [horig] at b1 b2 b3 b4
          simp only [spanAt]
          rw [hsp,
            List.getD_append_right (f.spans.take i) _ ⟨0, 0⟩ j
              (by rw [htake]; omega),
            htake, show j - i = (j - i - 1) + 1 by omega,
            List.getD_cons_succ]
          exact ⟨b3, b4, by omega⟩

/-- Behaviour of a failed `set`: the flag update and the buffer splice have
already been applied when the error is returned, spans with index below the
written one keep their bounds, and the error is always the length error. -/
theorem set_err_spec {N : Nat} (f : Format N) (i : Nat) (v : List Nat)
    (f2 : Format N) (e : Error) (hlen : f.spans.length = N) (hi : i < N)
    (h : f.set i v = (f2, some e)) :
    f2.value =
      f.value.take (spanAt f i).start ++ encode v ++
        f.value.drop (spanAt f i).stop ∧
    f2.flags = (if v.any shouldEncode then f.flags ||| 2 ^ i
      else f.flags &&& (2 ^ 64 - 1 - 2 ^ i)) ∧
    (∀ j, j < i → spanAt f2 j = spanAt f j) ∧
    e = .length := by
  simp only [Format.set] at h
  split at h
  · simp only [Prod.mk.injEq, Option.some.injEq] at h
    obtain ⟨h1, h2⟩ := h
    refine ⟨by rw [← h1], by rw [← h1], ?_, h2.symm⟩
    intro j hj
    unfold spanAt
    rw [← h1]
  · split at h
    · simp only [Prod.mk.injEq, Option.some.injEq] at h
      obtain ⟨h1, h2⟩ := h
      refine ⟨by rw [← h1], by rw [← h1], ?_, h2.symm⟩
      intro j hj
      unfold spanAt
      rw [← h1]
    · split at h
      · next e2 hse =>
        simp only [Prod.mk.injEq, Option.some.injEq] at h
        obtain ⟨h1, h2⟩ := h
        refine ⟨by rw [← h1], by rw [← h1], ?_, ?_⟩
        · intro j hj
          unfold spanAt
          rw [← h1]
        · rw [← h2]
          exact shiftEnd_err _ _ _ hse
      · next sp2 hse =>
        simp only [Prod.mk.injEq] at h
        obtain ⟨h1, h2⟩ := h
        have htake : (f.spans.take i).length = i := by
          simp [hlen]
          omega
        refine ⟨by rw [← h1], by rw [← h1], ?_, ?_⟩
        · intro j hj
          simp only [spanAt]
          rw [← h1]
          show (List.getD (_ ++ _) j _) = _
          rw [List.getD_append _ _ _ j (by rw [htake]; omega),
            getD_take_lt _ _ _ _ hj]
        · exact shiftLoop_err _ _ _ h2

-- ---------------------------------------------------------------------------
-- Consequences of well-formedness
-- ---------------------------------------------------------------------------

theorem stop_lt_start {N : Nat} {f : Format N} (hw : Wf f) (j i : Nat)
    (hji : j < i) (hi : i < N) :
    (spanAt f j).stop + 1 ≤ (spanAt f i).start := by
  induction i with
  | zero => omega
  | succ i2 ih =>
    have hc := hw.contig i2 (by omega)
    rcases Nat.lt_or_ge j i2 with hj2 | hj2
    · have hr := ih hj2 (by omega)
      have ho := hw.ordered i2 (by omega)
      omega
    · have hj2e : j = i2 := by omega
      subst hj2e
      omega

theorem stop_le_len {N : Nat} {f : Format N} (hw : Wf f) (j : Nat) (hj : j < N) :
    (spanAt f j).stop ≤ f.value.length := by
  rcases Nat.lt_or_ge j (N - 1) with h | h
  · have h1 := stop_lt_start hw j (N - 1) (by omega) (by omega)
    have h2 := hw.ordered (N - 1) (by omega)
    have h3 := hw.last
    omega
  · have hje : j = N - 1 := by omega
    subst hje
    exact hw.last.le

-- ---------------------------------------------------------------------------
-- Extraction after a successful set
-- ---------------------------------------------------------------------------

theorem drop_take_prefix {α : Type} (l : List α) (s : Nat) (hs : s ≤ l.length)
    (b : List α) : (l.take s ++ b).drop s = b := by
  have h1 : (l.take s).length = s := by
    rw [List.length_take]
    omega
  calc (l.take s ++ b).drop s
      = (l.take s ++ b).drop (l.take s).length := by rw [h1]
    _ = b := List.drop_left _ _

theorem set_ok_extract_lt {N : Nat} (f : Format N) (i : Nat) (v : List Nat)
    (f2 : Format N) (hw : Wf f) (hi : i < N) (h : f.set i v = (f2, none))
    (j : Nat) (hj : j < i) : f2.extract j = f.extract j := by
  obtain ⟨_, hval, _, _, hpre, _, _, _, _⟩ :=
    set_ok_spec f i v f2 hw.len_spans hi h
  have hsame := hpre j hj
  have hsl : (spanAt f j).stop ≤ (spanAt f i).start :=
    le_trans (by omega) (stop_lt_start hw j i hj hi)
  have hord := hw.ordered j (by omega)
  have hstart_le : (spanAt f i).start ≤ f.value.length := by
    have h1 := hw.ordered i hi
    have h2 := stop_le_len hw i hi
    omega
  have htl : (f.value.take (spanAt f i).start).length = (spanAt f i).start := by
    rw [List.length_take]
    omega
  unfold Format.extract
  rw [hsame, hval, List.append_assoc]
  rw [take_drop_far (f.value.take (spanAt f i).start) _ (spanAt f j).start
    (spanAt f j).len (by rw [htl]; unfold Span.len; omega)]
  rw [List.drop_take, List.take_take]
  congr 1
  unfold Span.len
  omega

theorem set_ok_extract_eq {N : Nat} (f : Format N) (i : Nat) (v : List Nat)
    (f2 : Format N) (hw : Wf f) (hi : i < N) (h : f.set i v = (f2, none)) :
    f2.extract i = encode v ∧ (spanAt f2 i).len = (encode v).length := by
  obtain ⟨_, hval, _, _, _, hst, hsp, _, _⟩ :=
    set_ok_spec f i v f2 hw.len_spans hi h
  have hord := hw.ordered i hi
  have hlen2 : (spanAt f2 i).len = (encode v).length := by
    unfold Span.len at hsp ⊢
    rw [hst]
    omega
  have hstart_le : (spanAt f i).start ≤ f.value.length := by
    have h2 := stop_le_len hw i hi
    omega
  have htl : (f.value.take (spanAt f i).start).length = (spanAt f i).start := by
    rw [List.length_take]
    omega
  refine ⟨?_, hlen2⟩
  unfold Format.extract
  rw [hlen2, hst, hval, List.append_assoc,
    drop_take_prefix f.value _ hstart_le, List.take_left]

theorem set_ok_count {N : Nat} (f : Format N) (i : Nat) (v : List Nat)
    (f2 : Format N) (hw : Wf f) (hi : i < N) (h : f.set i v = (f2, none)) :
    f2.value.count DELIM = f.value.count DELIM := by
  obtain ⟨_, hval, _, _, _, _, _, _, _⟩ :=
    set_ok_spec f i v f2 hw.len_spans hi h
  have hord := hw.ordered i hi
  have hdec : f.value = f.value.take (spanAt f i).start ++
      (f.extract i ++ f.value.drop (spanAt f i).stop) := by
    have hd := span_decomp f.value (spanAt f i).start (spanAt f i).stop hord
    unfold Format.extract Span.len
    exact hd
  have henc : (encode v).count DELIM = 0 :=
    List.count_eq_zero.mpr (delim_not_mem_encode v)
  have hmid : (f.extract i).count DELIM = 0 :=
    List.count_eq_zero.mpr (hw.noDelim i hi)
  conv_rhs => rw [hdec]
  rw [hval]
  simp [List.count_append, henc, hmid]

theorem set_ok_contig {N : Nat} (f : Format N) (i : Nat) (v : List Nat)
    (f2 : Format N) (hw : Wf f) (hi : i < N) (h : f.set i v = (f2, none)) :
    ∀ j, j < N - 1 → (spanAt f2 j).stop + 1 = (spanAt f2 (j + 1)).start := by
  obtain ⟨_, _, _, _, hpre, hst, hsp, _, hpost⟩ :=
    set_ok_spec f i v f2 hw.len_spans hi h
  intro j hj
  have hcon := hw.contig j hj
  rcases Nat.lt_or_ge (j + 1) i with hc | hc
  · rw [hpre j (by omega), hpre (j + 1) (by omega)]
    exact hcon
  · rcases Nat.eq_or_lt_of_le hc with hc2 | hc2
    · subst hc2
      rw [hpre j (by omega), hst]
      exact hcon
    · rcases Nat.eq_or_lt_of_le hc2 with hc3 | hc3
      · have hji : j = i := by omega
        subst hji
        obtain ⟨b1, _, _⟩ := hpost (j + 1) (by omega) (by omega)
        omega
      · obtain ⟨a1, a2, _⟩ := hpost j (by omega) (by omega)
        obtain ⟨b1, _, _⟩ := hpost (j + 1) (by omega) (by omega)
        omega

-- ---------------------------------------------------------------------------
-- Concrete fixtures
-- ---------------------------------------------------------------------------

/-- Concrete three-span format parsed from `a:b:c`, used by witnesses.  The
fallback arm is unreachable since the parse succeeds. -/
def f3 : Format 3 :=
  match formatFromStr 3 (strB "a:b:c") with
  | .ok f => f
  | _ => ⟨[], [], 0⟩

theorem wf_f3 : Wf f3 :=
  ⟨by decide, by decide, by decide, by decide, by decide, by decide,
    by decide, by decide⟩

/-- Concrete identifier parsed from `zri:file::docs:index.md:`.  The
fallback arm is unreachable since the parse succeeds. -/
def idEx : Id :=
  match Id.fromStr (strB "zri:file::docs:index.md:") with
  | .ok id => id
  | _ => ⟨⟨[], [], 0⟩⟩

theorem encode_replicate_97 (n : Nat) :
    encode (List.replicate n 97) = List.replicate n 97 := by
  apply encode_eq_self
  intro b hb
  rw [List.eq_of_mem_replicate hb]
  rfl

theorem any_replicate_97_false (n : Nat) :
    (List.replicate n 97).any shouldEncode = false := by
  rw [Bool.eq_false_iff]
  intro hx
  rw [List.any_eq_true] at hx
  obtain ⟨x, hx1, hx2⟩ := hx
  rw [List.eq_of_mem_replicate hx1] at hx2
  exact absurd hx2 (by decide)

/-- Setting span 0 of an empty one-span format to 32768 bytes fails the
`i16::try_from` length check — after the buffer has been spliced. -/
theorem set_overflow_eq :
    (Format.new 1).set 0 (List.replicate 32768 97) =
      (⟨List.replicate 32768 97, initSpans 1, 0⟩, some Error.length) := by
  have henc := encode_replicate_97 32768
  simp only [Format.set, henc, List.length_replicate, any_replicate_97_false,
    Bool.false_eq_true, if_false]
  rw [if_pos (by omega)]
  have hv : List.take (spanAt (Format.new 1) 0).start (Format.new 1).value ++
      List.replicate 32768 97 ++
      List.drop (spanAt (Format.new 1) 0).stop (Format.new 1).value =
      List.replicate 32768 97 := by
    show ([] ++ List.replicate 32768 97) ++ ([] : List Nat) =
      List.replicate 32768 97
    rw [List.nil_append, List.append_nil]
  rw [hv]
  rfl

theorem wf_new1 : Wf (Format.new 1) :=
  ⟨by decide, by decide, by decide, by decide, by decide, by decide,
    by decide, by decide⟩

-- ---------------------------------------------------------------------------
-- Claim C5
-- ---------------------------------------------------------------------------

/-- C5: after every successful `Format::set(i, v)`, spans below `i` keep
their bounds and their byte contents, span `i` holds exactly the encoded
value with the new length, every later span has the same length with both
bounds shifted by exactly `len(encode(v)) - old_len(i)`, and the delimiter
count and span contiguity of the buffer are preserved. -/
theorem C5_set_frame {N : Nat} (f : Format N) (i : Nat) (v : List Nat)
    (f2 : Format N) (hw : Wf f) (hi : i < N) (h : f.set i v = (f2, none)) :
    (∀ j, j < i → spanAt f2 j = spanAt f j ∧ f2.extract j = f.extract j) ∧
    f2.extract i = encode v ∧
    (spanAt f2 i).len = (encode v).length ∧
    (∀ j, i < j → j < N →
      (spanAt f2 j).len = (spanAt f j).len ∧
      ((spanAt f2 j).start : Int) =
        (spanAt f j).start +
          (((encode v).length : Int) - ((spanAt f i).len : Int)) ∧
      ((spanAt f2 j).stop : Int) =
        (spanAt f j).stop +
          (((encode v).length : Int) - ((spanAt f i).len : Int))) ∧
    (∀ j, j < N - 1 → (spanAt f2 j).stop + 1 = (spanAt f2 (j + 1)).start) ∧
    f2.value.count DELIM = f.value.count DELIM := by
  obtain ⟨hk, hval, hfl, hslen, hpre, hst, hsp, hb, hpost⟩ :=
    set_ok_spec f i v f2 hw.len_spans hi h
  obtain ⟨hx, hlen2⟩ := set_ok_extract_eq f i v f2 hw hi h
  refine ⟨?_, hx, hlen2, ?_, set_ok_contig f i v f2 hw hi h,
    set_ok_count f i v f2 hw hi h⟩
  · intro j hj
    exact ⟨hpre j hj, set_ok_extract_lt f i v f2 hw hi h j hj⟩
  · intro j hij hjN
    obtain ⟨b1, b2, _⟩ := hpost j hij hjN
    have hordj := hw.ordered j hjN
    refine ⟨?_, b1, b2⟩
    unfold Span.len
    omega

/-- Witness for C5 at a concrete format and value. -/
theorem C5_set_frame_witness :
    (f3.set 1 (strB "xy")).1.extract 1 = encode (strB "xy") := by
  have hset : f3.set 1 (strB "xy") = ((f3.set 1 (strB "xy")).1, none) := by
    decide
  exact (C5_set_frame f3 1 (strB "xy") ((f3.set 1 (strB "xy")).1) wf_f3
    (by decide) hset).2.1

-- ---------------------------------------------------------------------------
-- Claim C2
-- ---------------------------------------------------------------------------

/-- C2 (counterexample to the claim as stated): a `set` that returns the
Length error can leave the `Format` changed — the splice has already been
applied when the encoded length fails the `i16` check. -/
theorem C2_failed_set_mutates_cex :
    (Format.new 1).set 0 (List.replicate 32768 97) =
      (⟨List.replicate 32768 97, initSpans 1, 0⟩, some Error.length) ∧
    (⟨List.replicate 32768 97, initSpans 1, 0⟩ : Format 1) ≠ Format.new 1 := by
  refine ⟨set_overflow_eq, ?_⟩
  intro heq
  have hv := congrArg Format.value heq
  have hl := congrArg List.length hv
  rw [List.length_replicate] at hl
  exact absurd hl (by decide)

/-- C2 (amended): when `Format::set(i, v)` returns a Length error the
instance may be left partially mutated — the flag update and the buffer
splice have always been applied already; spans with index below `i` keep
their bounds, while span `i` and the later spans may be only partially
shifted. -/
theorem C2_set_error_state {N : Nat} (f : Format N) (i : Nat) (v : List Nat)
    (f2 : Format N) (e : Error) (hw : Wf f) (hi : i < N)
    (h : f.set i v = (f2, some e)) :
    e = .length ∧
    f2.value = f.value.take (spanAt f i).start ++ encode v ++
      f.value.drop (spanAt f i).stop ∧
    f2.flags = (if v.any shouldEncode then f.flags ||| 2 ^ i
      else f.flags &&& (2 ^ 64 - 1 - 2 ^ i)) ∧
    (∀ j, j < i → spanAt f2 j = spanAt f j) := by
  obtain ⟨h1, h2, h3, h4⟩ := set_err_spec f i v f2 e hw.len_spans hi h
  exact ⟨h4, h1, h2, h3⟩

/-- Witness for C2 at a concrete failing `set`. -/
theorem C2_set_error_state_witness :
    Error.length = Error.length ∧
    (⟨List.replicate 32768 97, initSpans 1, 0⟩ : Format 1).value =
      (Format.new 1).value.take (spanAt (Format.new 1) 0).start ++
        encode (List.replicate 32768 97) ++
        (Format.new 1).value.drop (spanAt (Format.new 1) 0).stop := by
  have hm := C2_set_error_state (Format.new 1) 0 (List.replicate 32768 97)
    ⟨List.replicate 32768 97, initSpans 1, 0⟩ Error.length wf_new1 (by decide)
    set_overflow_eq
  exact ⟨hm.1, hm.2.1⟩

-- ---------------------------------------------------------------------------
-- Claim C6
-- ---------------------------------------------------------------------------

/-- C6 (counterexample to the claim as stated): a value that contains the
delimiter but also a percent-escape-like sequence does not read back
identically — `%` itself is not escaped, so decoding collapses it. -/
theorem C6_percent_value_cex :
    DELIM ∈ strB ":%41" ∧
    (f3.set 1 (strB ":%41")).2 = none ∧
    (f3.set 1 (strB ":%41")).1.get 1 ≠ strB ":%41" := by decide

/-- C6 (amended): for every component index `i` and every valid-UTF-8
value `v` containing the delimiter but no percent sign, after `set(i, v)`
succeeds `get(i)` returns exactly `v` while the raw span bytes hold the
percent-encoded form; concretely, setting the example identifier's path to
`a:b` stores `%3A` in place of `:` in the raw buffer while `path()` returns
`a:b`. -/
theorem C6_escape_roundtrip {N : Nat} (f : Format N) (i : Nat) (v : List Nat)
    (f2 : Format N) (hw : Wf f) (hi : i < N) (hB : ∀ b ∈ v, b < 256)
    (hu : utf8Valid v = true) (hd : DELIM ∈ v) (hp : PCT ∉ v)
    (h : f.set i v = (f2, none)) :
    f2.get i = v ∧ f2.extract i = encode v ∧
    (idEx.setPath (strB "a:b")).2 = none ∧
    (idEx.setPath (strB "a:b")).1.format.value =
      strB "zri:file::docs:a%3Ab:" ∧
    (idEx.setPath (strB "a:b")).1.path = strB "a:b" := by
  obtain ⟨_, _, hfl, _, _, _, _, _, _⟩ :=
    set_ok_spec f i v f2 hw.len_spans hi h
  obtain ⟨hx, _⟩ := set_ok_extract_eq f i v f2 hw hi h
  have hany : v.any shouldEncode = true :=
    List.any_eq_true.mpr ⟨DELIM, hd, by decide⟩
  have hbit : f2.flags.testBit i = true := by
    rw [hfl, if_pos hany, Nat.testBit_or, Nat.testBit_two_pow_self]
    simp
  refine ⟨?_, hx, by decide, by decide, by decide⟩
  unfold Format.get
  rw [hbit, if_pos rfl, hx]
  exact decode_encode v hB hp hu

/-- Witness for C6 at a concrete format and value. -/
theorem C6_escape_roundtrip_witness :
    (f3.set 1 (strB "a:b")).1.get 1 = strB "a:b" := by
  have hset : f3.set 1 (strB "a:b") = ((f3.set 1 (strB "a:b")).1, none) := by
    decide
  exact (C6_escape_roundtrip f3 1 (strB "a:b") ((f3.set 1 (strB "a:b")).1)
    wf_f3 (by decide) (by decide) (by decide) (by decide) (by decide)
    hset).1

-- ---------------------------------------------------------------------------
-- Claim C3
-- ---------------------------------------------------------------------------

/-- C3: evaluation of `Format::<3>::from_str` at the failing input
`a:b:c:d` (three delimiters where two are allowed): the unchecked
`format.spans[index] = ...` write is out of bounds, a Rust panic, instead
of the documented cardinality error; too few delimiters do produce the
cardinality error. -/
theorem C3_excess_delimiters_crash :
    formatFromStr 3 (strB "a:b:c:d") = .crash ∧
    formatFromStr 3 (strB "a:b") = .error .cardinality := by decide

-- ---------------------------------------------------------------------------
-- Claim C7
-- ---------------------------------------------------------------------------

/-- C7: `Identifier::new("file", "docs", "index.md")` succeeds, its string
representation is exactly `zri:file::docs:index.md:`, and parsing that
string succeeds with scheme `file`, binding `None`, context `docs`, path
`index.md`, fragment `None`. -/
theorem C7_concrete_example :
    Id.new (strB "file") (strB "docs") (strB "index.md") = .ok idEx ∧
    idEx.format.asStr = strB "zri:file::docs:index.md:" ∧
    Id.fromStr (strB "zri:file::docs:index.md:") = .ok idEx ∧
    idEx.scheme = strB "file" ∧ idEx.binding = none ∧
    idEx.context = strB "docs" ∧ idEx.path = strB "index.md" ∧
    idEx.fragment = none := by decide

-- ---------------------------------------------------------------------------
-- Claim C8
-- ---------------------------------------------------------------------------

theorem validate_elim (s : List Nat) :
    validate s = .ok s ∨ validate s = .error .backslash := by
  unfold validate
  split <;> simp

/-- C8: every value containing a backslash byte is rejected with the
backslash error by `Id::new` (in any argument position), by identifier
parsing, and by every component setter of `Id` and `Selector`, each setter
leaving its instance unmodified. -/
theorem C8_backslash_rejected (v : List Nat) (hv : BSLASH ∈ v) :
    (∀ c p, Id.new v c p = .error .backslash) ∧
    (∀ s p, Id.new s v p = .error .backslash) ∧
    (∀ s c, Id.new s c v = .error .backslash) ∧
    Id.fromStr v = .error .backslash ∧
    (∀ id : Id, id.setScheme v = (id, some .backslash)) ∧
    (∀ id : Id, id.setBinding v = (id, some .backslash)) ∧
    (∀ id : Id, id.setContext v = (id, some .backslash)) ∧
    (∀ id : Id, id.setPath v = (id, some .backslash)) ∧
    (∀ id : Id, id.setFragment v = (id, some .backslash)) ∧
    (∀ s : Selector, s.setScheme v = (s, some .backslash)) ∧
    (∀ s : Selector, s.setBinding v = (s, some .backslash)) ∧
    (∀ s : Selector, s.setContext v = (s, some .backslash)) ∧
    (∀ s : Selector, s.setPath v = (s, some .backslash)) ∧
    (∀ s : Selector, s.setFragment v = (s, some .backslash)) := by
  have hval : validate v = .error .backslash := by
    unfold validate
    rw [if_pos hv]
  refine ⟨?_, ?_, ?_, ?_, ?_, ?_, ?_, ?_, ?_, ?_, ?_, ?_, ?_, ?_⟩
  · intro c p
    unfold Id.new
    rw [hval]
  · intro s p
    unfold Id.new
    rcases validate_elim s with h | h <;> rw [h]
    rw [hval]
  · intro s c
    unfold Id.new
    rcases validate_elim s with h | h <;> rw [h]
    · rcases validate_elim c with h2 | h2 <;> rw [h2]
      rw [hval]
  · unfold Id.fromStr
    rw [hval]
  all_goals
    intro x
    first
    | (unfold Id.setScheme; rw [hval])
    | (unfold Id.setBinding; rw [hval])
    | (unfold Id.setContext; rw [hval])
    | (unfold Id.setPath; rw [hval])
    | (unfold Id.setFragment; rw [hval])
    | (unfold Selector.setScheme; rw [hval])
    | (unfold Selector.setBinding; rw [hval])
    | (unfold Selector.setContext; rw [hval])
    | (unfold Selector.setPath; rw [hval])
    | (unfold Selector.setFragment; rw [hval])

/-- Witness for C8 at the concrete input of the specification. -/
theorem C8_backslash_rejected_witness :
    Id.new (strB "file\\x") (strB "docs") (strB "index.md") =
      .error .backslash :=
  (C8_backslash_rejected (strB "file\\x") (by decide)).1 (strB "docs")
    (strB "index.md")

-- ---------------------------------------------------------------------------
-- Claim C9
-- ---------------------------------------------------------------------------

theorem cmpList_eq_iff (xs ys : List Nat) : cmpList xs ys = .eq ↔ xs = ys := by
  induction xs generalizing ys with
  | nil => cases ys <;> simp [cmpList]
  | cons a xs2 ih =>
    cases ys with
    | nil => simp [cmpList]
    | cons b ys2 =>
      simp only [cmpList]
      cases hab : Ord.compare a b with
      | lt =>
        rw [Nat.compare_eq_lt] at hab
        simp only [List.cons.injEq]
        constructor
        · intro hx
          exact absurd hx (by simp)
        · intro hx
          omega
      | gt =>
        rw [Nat.compare_eq_gt] at hab
        simp only [List.cons.injEq]
        constructor
        · intro hx
          exact absurd hx (by simp)
        · intro hx
          omega
      | eq =>
        rw [Nat.compare_eq_eq] at hab
        subst hab
        simp only [List.cons.injEq, true_and]
        exact ih ys2

/-- Identifier parsed from `zri:s:%3A:c:p:`, with an uppercase escape in
the binding. -/
def idEsc1 : Id :=
  match Id.fromStr (strB "zri:s:%3A:c:p:") with
  | .ok id => id
  | _ => ⟨⟨[], [], 0⟩⟩

/-- Identifier parsed from `zri:s:%3a:c:p:`, with a lowercase escape in
the binding — logically the same binding as `idEsc1`. -/
def idEsc2 : Id :=
  match Id.fromStr (strB "zri:s:%3a:c:p:") with
  | .ok id => id
  | _ => ⟨⟨[], [], 0⟩⟩

/-- C9: equality, ordering and hashing of `Format` (and hence `Id` and
`Selector`) are exactly equality, ordering and hashing of the raw encoded
buffer bytes; two differently-escaped encodings of the same logical
component (here `%3A` vs `%3a`, both decoding the binding to `:`) compare
as distinct and non-equal. -/
theorem C9_raw_byte_equality :
    (∀ a b : Id, idBEq a b = true ↔ a.format.value = b.format.value) ∧
    (∀ a b : Id, idCmp a b = .eq ↔ a.format.value = b.format.value) ∧
    (∀ (H : List Nat → Nat) (a : Id), idHash H a = H a.format.value) ∧
    (∀ a b : Selector, selBEq a b = true ↔ a.format.value = b.format.value) ∧
    idEsc1.binding = some (strB ":") ∧ idEsc2.binding = some (strB ":") ∧
    idBEq idEsc1 idEsc2 = false ∧ idCmp idEsc1 idEsc2 ≠ .eq := by
  refine ⟨?_, ?_, ?_, ?_, by decide, by decide, by decide, by decide⟩
  · intro a b
    unfold idBEq formatBEq
    exact beq_iff_eq
  · intro a b
    unfold idCmp formatCmp
    exact cmpList_eq_iff _ _
  · intro H a
    rfl
  · intro a b
    unfold selBEq formatBEq
    exact beq_iff_eq

-- ---------------------------------------------------------------------------
-- Claim C10
-- ---------------------------------------------------------------------------

/-- C10: parsing never alters the backing bytes — for every string accepted
by `Format::from_str` the resulting value's `as_str` is exactly the input,
and a successfully parsed identifier displays as the string it was parsed
from. -/
theorem C10_parse_preserves_string (N : Nat) (s : List Nat) :
    (∀ f : Format N, formatFromStr N s = .ok f → f.asStr = s) ∧
    (∀ id : Id, Id.fromStr s = .ok id → id.format.asStr = s) := by
  have hfmt : ∀ (M : Nat) (f : Format M), formatFromStr M s = .ok f →
      f.asStr = s := by
    intro M f h
    unfold formatFromStr at h
    split at h
    · simp at h
    · simp at h
    · split at h
      · simp at h
      · split at h
        · simp at h
        · split at h
          · simp only [ParseResult.ok.injEq] at h
            rw [← h]
            rfl
          · simp at h
  refine ⟨hfmt N, ?_⟩
  intro id h
  unfold Id.fromStr at h
  split at h
  · simp at h
  · next v hveq =>
    have hv2 : v = s := by
      unfold validate at hveq
      split at hveq
      · simp at hveq
      · cases hveq
        rfl
    subst hv2
    split at h
    · simp at h
    · simp at h
    · next f hf =>
      split at h
      · simp at h
      · split at h
        · simp at h
        · split at h
          · simp at h
          · split at h
            · simp at h
            · simp only [PResult.ok.injEq] at h
              rw [← h]
              exact hfmt 6 f hf

/-- Witness for C10 at concrete parses. -/
theorem C10_parse_preserves_string_witness :
    f3.asStr = strB "a:b:c" ∧
    idEx.format.asStr = strB "zri:file::docs:index.md:" :=
  ⟨(C10_parse_preserves_string 3 (strB "a:b:c")).1 f3 (by decide),
   (C10_parse_preserves_string 6 (strB "zri:file::docs:index.md:")).2 idEx
     (by decide)⟩

-- ---------------------------------------------------------------------------
-- Scan lemmas
-- ---------------------------------------------------------------------------

/-- Scanning a delimiter-free segment only moves the position and possibly
the flag word; spans, start and index are untouched. -/
theorem scan_skip (N : Nat) (seg rest : List Nat) (i : Nat) (st : ScanSt)
    (h : DELIM ∉ seg) :
    ∃ fl, scan N (seg ++ rest) i st =
      scan N rest (i + seg.length) ⟨st.spans, fl, st.start, st.index⟩ := by
  induction seg generalizing i st with
  | nil =>
    refine ⟨st.flags, ?_⟩
    simp only [List.nil_append, List.length_nil, Nat.add_zero]
  | cons b seg2 ih =>
    have hb : b ≠ DELIM := fun hbe => h (hbe ▸ List.mem_cons_self b seg2)
    have h2 : DELIM ∉ seg2 := fun hm => h (List.mem_cons_of_mem b hm)
    rw [List.cons_append]
    simp only [scan, if_neg hb]
    obtain ⟨fl2, hrec⟩ := ih (i + 1)
      ⟨st.spans, scanFlags b (seg2 ++ rest) st, st.start, st.index⟩ h2
    refine ⟨fl2, ?_⟩
    rw [hrec]
    simp only [List.length_cons]
    congr 1
    omega

/-- Scanning a delimiter at an in-range position finalizes the current
span and moves to the next one. -/
theorem scan_delim (N : Nat) (rest : List Nat) (i : Nat) (st : ScanSt)
    (h1 : i + 1 ≤ 65535) (h2 : st.index < N) :
    scan N (DELIM :: rest) i st =
      scan N rest (i + 1)
        ⟨st.spans.set st.index ⟨st.start, i⟩, st.flags, i + 1,
          st.index + 1⟩ := by
  simp only [scan, if_true]
  rw [if_neg (by omega), if_neg (by omega), Nat.mod_eq_of_lt (by omega)]

-- ---------------------------------------------------------------------------
-- Parsing the canonical identifier string
-- ---------------------------------------------------------------------------

/-- The spans produced by parsing `canonical s c p`: tag, scheme, empty
binding, context, path, empty fragment. -/
def spansCanonical (s c p : List Nat) : List Span :=
  [⟨0, 3⟩, ⟨4, 4 + (encode s).length⟩,
   ⟨5 + (encode s).length, 5 + (encode s).length⟩,
   ⟨6 + (encode s).length, 6 + (encode s).length + (encode c).length⟩,
   ⟨7 + (encode s).length + (encode c).length,
    7 + (encode s).length + (encode c).length + (encode p).length⟩,
   ⟨8 + (encode s).length + (encode c).length + (encode p).length,
    8 + (encode s).length + (encode c).length + (encode p).length⟩]

theorem canonical_length (s c p : List Nat) :
    (canonical s c p).length =
      8 + (encode s).length + (encode c).length + (encode p).length := by
  unfold canonical
  simp only [List.length_append, List.length_cons, List.length_nil]
  have h1 : (strB "zri:").length = 4 := rfl
  have h2 : (strB "::").length = 2 := rfl
  rw [h1, h2]
  omega

theorem formatFromStr_ok_reduction (N : Nat) (value : List Nat) (st : ScanSt)
    (h : scan N value 0 ⟨initSpans N, 0, 0, 0⟩ = .ok st)
    (h1 : ¬ 65535 < value.length) (h2 : ¬ N ≤ st.index)
    (h3 : st.index = N - 1) :
    formatFromStr N value =
      .ok ⟨value, st.spans.set st.index ⟨st.start, value.length⟩,
        st.flags⟩ := by
  unfold formatFromStr
  simp only [h]
  rw [if_neg h1, if_neg h2, if_pos h3]

theorem canonical_parse (s c p : List Nat)
    (hlen : 8 + (encode s).length + (encode c).length + (encode p).length ≤
      65535) :
    ∃ fl, formatFromStr 6 (canonical s c p) =
      .ok ⟨canonical s c p, spansCanonical s c p, fl⟩ := by
  have hes := delim_not_mem_encode s
  have hec := delim_not_mem_encode c
  have hep := delim_not_mem_encode p
  have e1 : canonical s c p =
      [122, 114, 105] ++ (DELIM :: (encode s ++ (DELIM :: (DELIM ::
        (encode c ++ (DELIM :: (encode p ++
          (DELIM :: ([] : List Nat))))))))) := rfl
  obtain ⟨f1, h1⟩ := scan_skip 6 [122, 114, 105]
    (DELIM :: (encode s ++ (DELIM :: (DELIM :: (encode c ++ (DELIM ::
      (encode p ++ (DELIM :: ([] : List Nat))))))))) 0
    ⟨initSpans 6, 0, 0, 0⟩ (by decide)
  obtain ⟨f2, h2⟩ := scan_skip 6 (encode s)
    (DELIM :: (DELIM :: (encode c ++ (DELIM :: (encode p ++
      (DELIM :: ([] : List Nat))))))) 4
    ⟨(initSpans 6).set 0 ⟨0, 3⟩, f1, 4, 1⟩ hes
  obtain ⟨f3, h3⟩ := scan_skip 6 (encode c)
    (DELIM :: (encode p ++ (DELIM :: ([] : List Nat))))
    (6 + (encode s).length)
    ⟨(((initSpans 6).set 0 ⟨0, 3⟩).set 1 ⟨4, 4 + (encode s).length⟩).set 2
      ⟨5 + (encode s).length, 5 + (encode s).length⟩, f2,
      6 + (encode s).length, 3⟩ hec
  obtain ⟨f4, h4⟩ := scan_skip 6 (encode p) (DELIM :: ([] : List Nat))
    (7 + (encode s).length + (encode c).length)
    ⟨((((initSpans 6).set 0 ⟨0, 3⟩).set 1 ⟨4, 4 + (encode s).length⟩).set 2
      ⟨5 + (encode s).length, 5 + (encode s).length⟩).set 3
      ⟨6 + (encode s).length, 6 + (encode s).length + (encode c).length⟩, f3,
      7 + (encode s).length + (encode c).length, 4⟩ hep
  have hscan : scan 6 (canonical s c p) 0 ⟨initSpans 6, 0, 0, 0⟩ =
      .ok ⟨((((initSpans 6).set 0 ⟨0, 3⟩).set 1
          ⟨4, 4 + (encode s).length⟩).set 2
          ⟨5 + (encode s).length, 5 + (encode s).length⟩).set 3
          ⟨6 + (encode s).length, 6 + (encode s).length + (encode c).length⟩
          |>.set 4 ⟨7 + (encode s).length + (encode c).length,
            7 + (encode s).length + (encode c).length + (encode p).length⟩,
        f4, 8 + (encode s).length + (encode c).length + (encode p).length,
        5⟩ := by
    calc scan 6 (canonical s c p) 0 ⟨initSpans 6, 0, 0, 0⟩
        = scan 6 ([122, 114, 105] ++ (DELIM :: (encode s ++ (DELIM ::
            (DELIM :: (encode c ++ (DELIM :: (encode p ++
              (DELIM :: ([] : List Nat)))))))))) 0
            ⟨initSpans 6, 0, 0, 0⟩ := by rw [← e1]
      _ = scan 6 (DELIM :: (encode s ++ (DELIM :: (DELIM :: (encode c ++
            (DELIM :: (encode p ++ (DELIM :: ([] : List Nat))))))))) 3
            ⟨initSpans 6, f1, 0, 0⟩ := by simpa using h1
      _ = scan 6 (encode s ++ (DELIM :: (DELIM :: (encode c ++ (DELIM ::
            (encode p ++ (DELIM :: ([] : List Nat)))))))) 4
            ⟨(initSpans 6).set 0 ⟨0, 3⟩, f1, 4, 1⟩ := by
          rw [scan_delim 6 _ 3 _ (by omega) (by simp)]
      _ = scan 6 (DELIM :: (DELIM :: (encode c ++ (DELIM :: (encode p ++
            (DELIM :: ([] : List Nat))))))) (4 + (encode s).length)
            ⟨(initSpans 6).set 0 ⟨0, 3⟩, f2, 4, 1⟩ := by simpa using h2
      _ = scan 6 (DELIM :: (encode c ++ (DELIM :: (encode p ++
            (DELIM :: ([] : List Nat)))))) (5 + (encode s).length)
            ⟨((initSpans 6).set 0 ⟨0, 3⟩).set 1 ⟨4, 4 + (encode s).length⟩,
              f2, 5 + (encode s).length, 2⟩ := by
          rw [scan_delim 6 _ _ _ (by omega) (by simp),
            show 4 + (encode s).length + 1 = 5 + (encode s).length from by
              omega]
      _ = scan 6 (encode c ++ (DELIM :: (encode p ++
            (DELIM :: ([] : List Nat))))) (6 + (encode s).length)
            ⟨(((initSpans 6).set 0 ⟨0, 3⟩).set 1
              ⟨4, 4 + (encode s).length⟩).set 2
              ⟨5 + (encode s).length, 5 + (encode s).length⟩, f2,
              6 + (encode s).length, 3⟩ := by
          rw [scan_delim 6 _ _ _ (by omega) (by simp),
            show 5 + (encode s).length + 1 = 6 + (encode s).length from by
              omega]
      _ = scan 6 (DELIM :: (encode p ++ (DELIM :: ([] : List Nat))))
            (6 + (encode s).length + (encode c).length)
            ⟨(((initSpans 6).set 0 ⟨0, 3⟩).set 1
              ⟨4, 4 + (encode s).length⟩).set 2
              ⟨5 + (encode s).length, 5 + (encode s).length⟩, f3,
              6 + (encode s).length, 3⟩ := by simpa using h3
      _ = scan 6 (encode p ++ (DELIM :: ([] : List Nat)))
            (7 + (encode s).length + (encode c).length)
            ⟨((((initSpans 6).set 0 ⟨0, 3⟩).set 1
              ⟨4, 4 + (encode s).length⟩).set 2
              ⟨5 + (encode s).length, 5 + (encode s).length⟩).set 3
              ⟨6 + (encode s).length,
                6 + (encode s).length + (encode c).length⟩, f3,
              7 + (encode s).length + (encode c).length, 4⟩ := by
          rw [scan_delim 6 _ _ _ (by omega) (by simp),
            show 6 + (encode s).length + (encode c).length + 1 =
              7 + (encode s).length + (encode c).length from by omega]
      _ = scan 6 (DELIM :: ([] : List Nat))
            (7 + (encode s).length + (encode c).length + (encode p).length)
            ⟨((((initSpans 6).set 0 ⟨0, 3⟩).set 1
              ⟨4, 4 + (encode s).length⟩).set 2
              ⟨5 + (encode s).length, 5 + (encode s).length⟩).set 3
              ⟨6 + (encode s).length,
                6 + (encode s).length + (encode c).length⟩, f4,
              7 + (encode s).length + (encode c).length, 4⟩ := by
          simpa using h4
      _ = scan 6 ([] : List Nat)
            (8 + (encode s).length + (encode c).length + (encode p).length)
            ⟨((((initSpans 6).set 0 ⟨0, 3⟩).set 1
              ⟨4, 4 + (encode s).length⟩).set 2
              ⟨5 + (encode s).length, 5 + (encode s).length⟩).set 3
              ⟨6 + (encode s).length,
                6 + (encode s).length + (encode c).length⟩
              |>.set 4 ⟨7 + (encode s).length + (encode c).length,
                7 + (encode s).length + (encode c).length +
                  (encode p).length⟩, f4,
              8 + (encode s).length + (encode c).length + (encode p).length,
              5⟩ := by
          rw [scan_delim 6 _ _ _ (by omega) (by simp),
            show 7 + (encode s).length + (encode c).length +
                (encode p).length + 1 =
              8 + (encode s).length + (encode c).length + (encode p).length
              from by omega]
      _ = .ok ⟨((((initSpans 6).set 0 ⟨0, 3⟩).set 1
              ⟨4, 4 + (encode s).length⟩).set 2
              ⟨5 + (encode s).length, 5 + (encode s).length⟩).set 3
              ⟨6 + (encode s).length,
                6 + (encode s).length + (encode c).length⟩
              |>.set 4 ⟨7 + (encode s).length + (encode c).length,
                7 + (encode s).length + (encode c).length +
                  (encode p).length⟩, f4,
              8 + (encode s).length + (encode c).length + (encode p).length,
              5⟩ := by
          simp only [scan]
  refine ⟨f4, ?_⟩
  rw [formatFromStr_ok_reduction 6 (canonical s c p) _ hscan
    (by rw [canonical_length]; omega) (by simp) (by simp)]
  rw [canonical_length]
  have hinit : initSpans 6 =
      [⟨0, 0⟩, ⟨1, 1⟩, ⟨2, 2⟩, ⟨3, 3⟩, ⟨4, 4⟩, ⟨5, 5⟩] := rfl
  simp only [hinit, List.set]
  rfl

theorem get_of_ascii_no_pct {N : Nat} (f : Format N) (i : Nat)
    (h : PCT ∉ f.extract i) (ha : ∀ b ∈ f.extract i, b < 128) :
    f.get i = f.extract i := by
  unfold Format.get
  split
  · rw [decode_ascii_no_pct _ h ha]
  · rfl


-- ---------------------------------------------------------------------------
-- Claim C4
-- ---------------------------------------------------------------------------

/-- If the scan fails with the length error, so does `formatFromStr`. -/
theorem formatFromStr_length_err (N : Nat) (v : List Nat)
    (h : scan N v 0 ⟨initSpans N, 0, 0, 0⟩ = .error .length) :
    formatFromStr N v = .error .length := by
  unfold formatFromStr
  rw [h]

/-- `Id.new` propagates a format error when all components validate. -/
theorem Id.new_format_err (s c p : List Nat) (e : Error)
    (hs : validate s = .ok s) (hc : validate c = .ok c)
    (hp : validate p = .ok p)
    (hf : formatFromStr 6 (canonical s c p) = .error e) :
    Id.new s c p = .error (.format e) := by
  unfold Id.new
  simp only [hs, hc, hp, hf]

/-- The scan of the canonical form of an oversized path hits the
position check `65535 < i` at the final delimiter. -/
theorem scan_oversized_err : scan 6 (canonical (strB "a") (strB "a")
    (List.replicate 70000 97)) 0 ⟨initSpans 6, 0, 0, 0⟩ =
    .error .length := by
  have er := encode_replicate_97 70000
  have hlen70 : (encode (List.replicate 70000 97)).length = 70000 := by
    rw [er, List.length_replicate]
  have hd : DELIM ∉ encode (List.replicate 70000 97) :=
    delim_not_mem_encode _
  have e1 : canonical (strB "a") (strB "a") (List.replicate 70000 97) =
      [122, 114, 105] ++ (DELIM :: ([97] ++ (DELIM :: (DELIM :: ([97] ++
        (DELIM :: (encode (List.replicate 70000 97) ++
          (DELIM :: ([] : List Nat))))))))) := rfl
  obtain ⟨g1, k1⟩ := scan_skip 6 [122, 114, 105]
    (DELIM :: ([97] ++ (DELIM :: (DELIM :: ([97] ++ (DELIM ::
      (encode (List.replicate 70000 97) ++ (DELIM :: ([] : List Nat)))))))))
    0 ⟨initSpans 6, 0, 0, 0⟩ (by decide)
  obtain ⟨g2, k2⟩ := scan_skip 6 [97]
    (DELIM :: (DELIM :: ([97] ++ (DELIM ::
      (encode (List.replicate 70000 97) ++ (DELIM :: ([] : List Nat)))))))
    4 ⟨(initSpans 6).set 0 ⟨0, 3⟩, g1, 4, 1⟩ (by decide)
  obtain ⟨g3, k3⟩ := scan_skip 6 [97]
    (DELIM :: (encode (List.replicate 70000 97) ++
      (DELIM :: ([] : List Nat)))) 7
    ⟨(((initSpans 6).set 0 ⟨0, 3⟩).set 1 ⟨4, 5⟩).set 2 ⟨6, 6⟩, g2, 7, 3⟩
    (by decide)
  obtain ⟨g4, k4⟩ := scan_skip 6 (encode (List.replicate 70000 97))
    (DELIM :: ([] : List Nat)) 9
    ⟨((((initSpans 6).set 0 ⟨0, 3⟩).set 1 ⟨4, 5⟩).set 2 ⟨6, 6⟩).set 3
      ⟨7, 8⟩, g3, 9, 4⟩ hd
  have hscan : scan 6 (canonical (strB "a") (strB "a")
      (List.replicate 70000 97)) 0 ⟨initSpans 6, 0, 0, 0⟩ =
      .error .length := by
    calc scan 6 (canonical (strB "a") (strB "a") (List.replicate 70000 97))
          0 ⟨initSpans 6, 0, 0, 0⟩
        = scan 6 ([122, 114, 105] ++ (DELIM :: ([97] ++ (DELIM :: (DELIM ::
            ([97] ++ (DELIM :: (encode (List.replicate 70000 97) ++
              (DELIM :: ([] : List Nat)))))))))) 0
            ⟨initSpans 6, 0, 0, 0⟩ := by rw [← e1]
      _ = scan 6 (DELIM :: ([97] ++ (DELIM :: (DELIM :: ([97] ++ (DELIM ::
            (encode (List.replicate 70000 97) ++
              (DELIM :: ([] : List Nat))))))))) 3
            ⟨initSpans 6, g1, 0, 0⟩ := k1
      _ = scan 6 ([97] ++ (DELIM :: (DELIM :: ([97] ++ (DELIM ::
            (encode (List.replicate 70000 97) ++
              (DELIM :: ([] : List Nat)))))))) 4
            ⟨(initSpans 6).set 0 ⟨0, 3⟩, g1, 4, 1⟩ := by
          rw [scan_delim 6 _ 3 _ (by omega) (by simp)]
      _ = scan 6 (DELIM :: (DELIM :: ([97] ++ (DELIM ::
            (encode (List.replicate 70000 97) ++
              (DELIM :: ([] : List Nat))))))) 5
            ⟨(initSpans 6).set 0 ⟨0, 3⟩, g2, 4, 1⟩ := k2
      _ = scan 6 (DELIM :: ([97] ++ (DELIM ::
            (encode (List.replicate 70000 97) ++
              (DELIM :: ([] : List Nat)))))) 6
            ⟨((initSpans 6).set 0 ⟨0, 3⟩).set 1 ⟨4, 5⟩, g2, 6, 2⟩ := by
          rw [scan_delim 6 _ 5 _ (by omega) (by simp)]
      _ = scan 6 ([97] ++ (DELIM ::
            (encode (List.replicate 70000 97) ++
              (DELIM :: ([] : List Nat))))) 7
            ⟨(((initSpans 6).set 0 ⟨0, 3⟩).set 1 ⟨4, 5⟩).set 2 ⟨6, 6⟩, g2,
              7, 3⟩ := by
          rw [scan_delim 6 _ 6 _ (by omega) (by simp)]
      _ = scan 6 (DELIM :: (encode (List.replicate 70000 97) ++
            (DELIM :: ([] : List Nat)))) 8
            ⟨(((initSpans 6).set 0 ⟨0, 3⟩).set 1 ⟨4, 5⟩).set 2 ⟨6, 6⟩, g3,
              7, 3⟩ := k3
      _ = scan 6 (encode (List.replicate 70000 97) ++
            (DELIM :: ([] : List Nat))) 9
            ⟨((((initSpans 6).set 0 ⟨0, 3⟩).set 1 ⟨4, 5⟩).set 2 ⟨6, 6⟩).set 3
              ⟨7, 8⟩, g3, 9, 4⟩ := by
          rw [scan_delim 6 _ 8 _ (by omega) (by simp)]
      _ = scan 6 (DELIM :: ([] : List Nat))
            (9 + (encode (List.replicate 70000 97)).length)
            ⟨((((initSpans 6).set 0 ⟨0, 3⟩).set 1 ⟨4, 5⟩).set 2 ⟨6, 6⟩).set 3
              ⟨7, 8⟩, g4, 9, 4⟩ := k4
      _ = .error .length := by
          rw [hlen70]
          rw [scan]
          rw [if_pos rfl]
          rw [if_pos (by omega)]
  exact hscan

/-- C4 (counterexample to the claim as stated): non-empty, backslash-free
components whose canonical form exceeds 65535 bytes make `Id::new` fail
with the Length error (the `u16::try_from` position check in `from_str`),
so the unqualified round-trip claim does not hold. -/
theorem C4_oversized_new_cex :
    Id.new (strB "a") (strB "a") (List.replicate 70000 97) =
    .error (.format .length) := by
  have hv3 : validate (List.replicate 70000 97) =
      .ok (List.replicate 70000 97) := by
    unfold validate
    rw [if_neg]
    intro hm
    have := List.eq_of_mem_replicate hm
    simp [BSLASH] at this
  exact Id.new_format_err _ _ _ _ rfl rfl hv3
    (formatFromStr_length_err 6 _ scan_oversized_err)

/-- Validation succeeds exactly on backslash-free values. -/
theorem validate_ok (v : List Nat) (h : BSLASH ∉ v) :
    validate v = .ok v := by
  unfold validate
  rw [if_neg h]

/-- `Id.new` succeeds when all components validate and the canonical string
parses. -/
theorem Id.new_ok (s c p : List Nat) (f : Format 6)
    (hs : validate s = .ok s) (hc : validate c = .ok c)
    (hp : validate p = .ok p)
    (hf : formatFromStr 6 (canonical s c p) = .ok f) :
    Id.new s c p = .ok ⟨f⟩ := by
  unfold Id.new
  simp only [hs, hc, hp, hf]

/-- `Id.fromStr` succeeds when the value validates and parses, the tag is
`zri`, and scheme, context and path are non-empty. -/
theorem Id.fromStr_ok (v : List Nat) (f : Format 6)
    (hval : validate v = .ok v) (hf : formatFromStr 6 v = .ok f)
    (h0 : f.get 0 = strB "zri") (h1 : f.get 1 ≠ [])
    (h3 : f.get 3 ≠ []) (h4 : f.get 4 ≠ []) :
    Id.fromStr v = .ok ⟨f⟩ := by
  unfold Id.fromStr
  simp only [hval, hf]
  rw [if_neg (fun hne => hne h0), if_neg h1, if_neg h3, if_neg h4]

/-- A span that selects a middle segment of the buffer extracts exactly
that segment. -/
theorem extract_eq_seg {N : Nat} (f : Format N) (i : Nat)
    (pre seg post : List Nat) (a : Nat)
    (hv : f.value = pre ++ (seg ++ post))
    (hsp : spanAt f i = ⟨a, a + seg.length⟩) (ha : pre.length = a) :
    f.extract i = seg := by
  unfold Format.extract
  rw [hsp, hv]
  simp only [Span.len]
  rw [Nat.add_sub_cancel_left, ← ha]
  exact seg_at pre seg post

/-- `Format.get` of a non-empty raw segment is non-empty, whether or not it
is percent-decoded. -/
theorem get_ne_nil {N : Nat} (f : Format N) (i : Nat)
    (h : f.extract i ≠ []) : f.get i ≠ [] := by
  unfold Format.get
  split
  · exact decode_ne_nil _ h
  · exact h

/-- Tag segment of the parsed canonical string. -/
theorem canonicalF_extract0 (s c p : List Nat) (fl : Nat) :
    (⟨canonical s c p, spansCanonical s c p, fl⟩ : Format 6).extract 0 =
      [122, 114, 105] :=
  extract_eq_seg _ 0 [] [122, 114, 105]
    (DELIM :: (encode s ++ (strB "::" ++ (encode c ++
      ([DELIM] ++ (encode p ++ [DELIM])))))) 0 rfl rfl rfl

/-- Scheme segment of the parsed canonical string. -/
theorem canonicalF_extract1 (s c p : List Nat) (fl : Nat) :
    (⟨canonical s c p, spansCanonical s c p, fl⟩ : Format 6).extract 1 =
      encode s :=
  extract_eq_seg _ 1 (strB "zri:") (encode s)
    (strB "::" ++ (encode c ++ ([DELIM] ++ (encode p ++ [DELIM])))) 4
    rfl rfl rfl

/-- Context segment of the parsed canonical string. -/
theorem canonicalF_extract3 (s c p : List Nat) (fl : Nat) :
    (⟨canonical s c p, spansCanonical s c p, fl⟩ : Format 6).extract 3 =
      encode c := by
  refine extract_eq_seg _ 3 (strB "zri:" ++ (encode s ++ strB "::"))
    (encode c) ([DELIM] ++ (encode p ++ [DELIM]))
    (6 + (encode s).length) ?_ rfl ?_
  · show canonical s c p = _
    simp only [canonical, List.append_assoc]
  · simp only [List.length_append]
    rw [show (strB "zri:").length = 4 from rfl,
      show (strB "::").length = 2 from rfl]
    omega

/-- Path segment of the parsed canonical string. -/
theorem canonicalF_extract4 (s c p : List Nat) (fl : Nat) :
    (⟨canonical s c p, spansCanonical s c p, fl⟩ : Format 6).extract 4 =
      encode p := by
  refine extract_eq_seg _ 4
    (strB "zri:" ++ (encode s ++ (strB "::" ++ (encode c ++ [DELIM]))))
    (encode p) [DELIM]
    (7 + (encode s).length + (encode c).length) ?_ rfl ?_
  · show canonical s c p = _
    simp only [canonical, List.append_assoc]
  · simp only [List.length_append]
    rw [show (strB "zri:").length = 4 from rfl,
      show (strB "::").length = 2 from rfl,
      show ([DELIM] : List Nat).length = 1 from rfl]
    omega

/-- The canonical string of backslash-free components is backslash-free. -/
theorem bslash_not_mem_canonical (s c p : List Nat)
    (hbs : ∀ b ∈ s, b < 256) (hbc : ∀ b ∈ c, b < 256)
    (hbp : ∀ b ∈ p, b < 256)
    (hs : BSLASH ∉ s) (hc : BSLASH ∉ c) (hp : BSLASH ∉ p) :
    BSLASH ∉ canonical s c p := by
  unfold canonical
  intro hm
  simp only [List.mem_append] at hm
  rcases hm with (h | h) | h | h | h | h | h
  · exact absurd h (by decide)
  · exact bslash_not_mem_encode s hbs hs h
  · exact absurd h (by decide)
  · exact bslash_not_mem_encode c hbc hc h
  · exact absurd h (by decide)
  · exact bslash_not_mem_encode p hbp hp h
  · exact absurd h (by decide)

/-- C4 (amended): for backslash-free byte components with non-empty scheme,
context and path whose canonical encoded form fits the 65535-byte position
limit, `Id::new` succeeds and parsing its string representation with
`Id::from_str` returns an identical identifier. -/
theorem C4_roundtrip (s c p : List Nat)
    (hbs : ∀ b ∈ s, b < 256) (hbc : ∀ b ∈ c, b < 256)
    (hbp : ∀ b ∈ p, b < 256)
    (hs : BSLASH ∉ s) (hc : BSLASH ∉ c) (hp : BSLASH ∉ p)
    (hns : s ≠ []) (hnc : c ≠ []) (hnp : p ≠ [])
    (hlen : 8 + (encode s).length + (encode c).length +
      (encode p).length ≤ 65535) :
    ∃ id : Id, Id.new s c p = .ok id ∧
      Id.fromStr id.format.asStr = .ok id := by
  obtain ⟨fl, hparse⟩ := canonical_parse s c p hlen
  refine ⟨⟨⟨canonical s c p, spansCanonical s c p, fl⟩⟩, ?_, ?_⟩
  · exact Id.new_ok s c p _ (validate_ok s hs) (validate_ok c hc)
      (validate_ok p hp) hparse
  · refine Id.fromStr_ok (canonical s c p) _
      (validate_ok _ (bslash_not_mem_canonical s c p hbs hbc hbp hs hc hp))
      hparse ?_ ?_ ?_ ?_
    · rw [get_of_ascii_no_pct _ 0 (by rw [canonicalF_extract0]; decide)
        (by rw [canonicalF_extract0]; decide),
        canonicalF_extract0]
      rfl
    · exact get_ne_nil _ 1
        (by rw [canonicalF_extract1]; exact encode_ne_nil s hns)
    · exact get_ne_nil _ 3
        (by rw [canonicalF_extract3]; exact encode_ne_nil c hnc)
    · exact get_ne_nil _ 4
        (by rw [canonicalF_extract4]; exact encode_ne_nil p hnp)

/-- Witness for C4: the round trip succeeds on
`("file", "docs", "index.md")`. -/
theorem C4_roundtrip_witness :
    ∃ id : Id, Id.new (strB "file") (strB "docs") (strB "index.md") =
        .ok id ∧ Id.fromStr id.format.asStr = .ok id :=
  C4_roundtrip (strB "file") (strB "docs") (strB "index.md")
    (by decide) (by decide) (by decide) (by decide) (by decide) (by decide)
    (by decide) (by decide) (by decide) (by decide)

-- ---------------------------------------------------------------------------
-- Claim C1
-- ---------------------------------------------------------------------------

theorem getD_map_lt {α β : Type} (l : List α) (f : α → β) (d : β) (k : Nat)
    (h : k < l.length) : (l.map f).getD k d = f (l.get ⟨k, h⟩) := by
  rw [List.getD_eq_get _ _ (by simpa using h)]
  simp

theorem getD_replicate_lt (n a k : Nat) (h : k < n) :
    (List.replicate n a).getD k 0 = a := by
  rw [List.getD_eq_get _ _ (by simpa using h)]
  simp

theorem bumpFrom_length (slots ms : List Nat) (j : Nat) :
    (bumpFrom slots ms j).length = slots.length := by
  induction slots generalizing j with
  | nil => rfl
  | cons x rest ih => simp [bumpFrom, ih]

theorem bumpFrom_getD (slots ms : List Nat) (j k : Nat)
    (h : k < slots.length) :
    (bumpFrom slots ms j).getD k 0 =
      if (j + k) ∈ ms then slots.getD k 0 + 1 else slots.getD k 0 := by
  induction slots generalizing j k with
  | nil => simp at h
  | cons x rest ih =>
    cases k with
    | zero => simp [bumpFrom]
    | succ k2 =>
      simp only [bumpFrom, List.getD_cons_succ]
      rw [show j + (k2 + 1) = (j + 1) + k2 from by omega]
      exact ih (j + 1) k2 (by simpa using h)

theorem globSetMatches_mem (c : List Pat) (w : List Nat) (k : Nat) :
    k ∈ globSetMatches c w ↔
      k < c.length ∧ c.getD k (fun _ => false) w = true := by
  simp [globSetMatches, List.mem_filter, List.mem_range]

theorem globSetMatches_nil_iff (c : List Pat) (w : List Nat) :
    globSetMatches c w = [] ↔
      ∀ k, k < c.length → c.getD k (fun _ => false) w = false := by
  unfold globSetMatches
  rw [List.filter_eq_nil_iff]
  simp [List.mem_range]

theorem stepComponent_some_spec (c : List Pat) (v : Option (List Nat))
    (slots s2 : List Nat) (h : stepComponent c v slots = some s2) :
    s2.length = slots.length ∧ ∀ k, k < slots.length →
      s2.getD k 0 = slots.getD k 0 + (if passOne c v k then 1 else 0) := by
  cases v with
  | none =>
    simp only [stepComponent, Option.some.injEq] at h
    constructor
    · rw [← h]; simp
    · intro k hk
      rw [← h, passOne]
      simp only [if_pos trivial, if_true]
      rw [getD_map_lt slots _ 0 k hk, List.getD_eq_get slots 0 hk]
  | some w =>
    simp only [stepComponent] at h
    split at h
    · exact absurd h (by simp)
    · next hne =>
      rw [Option.some.injEq] at h
      subst h
      refine ⟨bumpFrom_length slots _ 0, ?_⟩
      intro k hk
      rw [bumpFrom_getD slots _ 0 k hk, Nat.zero_add]
      by_cases hp : c.getD k (fun _ => false) w = true
      · have hkc : k < c.length := by
          by_contra hkc
          rw [List.getD_eq_default _ _ (by omega)] at hp
          simp at hp
        rw [if_pos ((globSetMatches_mem c w k).mpr ⟨hkc, hp⟩),
          if_pos (by simp [passOne, hp])]
      · rw [if_neg (fun hm => hp ((globSetMatches_mem c w k).mp hm).2),
          if_neg (by simp [passOne]; simpa using hp)]
        omega

theorem matchesLoop_some_spec (pairs : List (List Pat × Option (List Nat)))
    (slots final : List Nat) (h : matchesLoop pairs slots = some final) :
    final.length = slots.length ∧ ∀ k, k < slots.length →
      final.getD k 0 = slots.getD k 0 +
        pairs.countP (fun cv => passOne cv.1 cv.2 k) := by
  induction pairs generalizing slots with
  | nil =>
    simp only [matchesLoop, Option.some.injEq] at h
    subst h
    simp
  | cons cv rest ih =>
    obtain ⟨c, v⟩ := cv
    simp only [matchesLoop] at h
    cases hst : stepComponent c v slots with
    | none => rw [hst] at h; exact absurd h (by simp)
    | some s2 =>
      rw [hst] at h
      obtain ⟨hl2, hk2⟩ := stepComponent_some_spec c v slots s2 hst
      obtain ⟨hlf, hkf⟩ := ih s2 h
      refine ⟨by omega, ?_⟩
      intro k hk
      rw [hkf k (by omega), hk2 k hk]
      simp only [List.countP_cons]
      omega

theorem matchesLoop_none_spec (pairs : List (List Pat × Option (List Nat)))
    (slots : List Nat) (h : matchesLoop pairs slots = none) :
    ∃ cv ∈ pairs, ∃ w, cv.2 = some w ∧ globSetMatches cv.1 w = [] := by
  induction pairs generalizing slots with
  | nil => simp [matchesLoop] at h
  | cons cv rest ih =>
    obtain ⟨c, v⟩ := cv
    simp only [matchesLoop] at h
    cases hst : stepComponent c v slots with
    | none =>
      cases v with
      | none => simp [stepComponent] at hst
      | some w =>
        refine ⟨(c, some w), List.mem_cons_self _ _, w, rfl, ?_⟩
        simp only [stepComponent] at hst
        split at hst
        · next he => simpa using he
        · exact absurd hst (by simp)
    | some s2 =>
      rw [hst] at h
      obtain ⟨cv2, hmem, hw⟩ := ih s2 h
      exact ⟨cv2, List.mem_cons_of_mem _ hmem, hw⟩

theorem enumFrom_filterMap_congr {α β γ : Type}
    (f : Nat × α → Option γ) (g : Nat × β → Option γ) :
    ∀ (a : List α) (b : List β), a.length = b.length →
    (∀ (k i2 : Nat) (h1 : k < a.length) (h2 : k < b.length),
      f (i2, a.get ⟨k, h1⟩) = g (i2, b.get ⟨k, h2⟩)) →
    ∀ i : Nat, (a.enumFrom i).filterMap f = (b.enumFrom i).filterMap g := by
  intro a
  induction a with
  | nil =>
    intro b hlen _ i
    cases b with
    | nil => rfl
    | cons y b2 => simp at hlen
  | cons x a2 ih =>
    intro b hlen hpt i
    cases b with
    | nil => simp at hlen
    | cons y b2 =>
      have h0 : f (i, x) = g (i, y) := hpt 0 i (by simp) (by simp)
      rw [show (x :: a2).enumFrom i = (i, x) :: a2.enumFrom (i + 1) from rfl,
        show (y :: b2).enumFrom i = (i, y) :: b2.enumFrom (i + 1) from rfl,
        List.filterMap_cons, List.filterMap_cons]
      have htl := ih b2 (by simpa using hlen)
        (fun k i2 h1 h2 => hpt (k + 1) i2 (by simpa using h1)
          (by simpa using h2)) (i + 1)
      rw [h0, htl]

theorem enumFrom_filterMap_nil {α γ : Type} (f : Nat × α → Option γ) :
    ∀ (a : List α),
    (∀ (k i2 : Nat) (h1 : k < a.length), f (i2, a.get ⟨k, h1⟩) = none) →
    ∀ i : Nat, (a.enumFrom i).filterMap f = [] := by
  intro a
  induction a with
  | nil => intro _ i; rfl
  | cons x a2 ih =>
    intro hpt i
    have h0 : f (i, x) = none := hpt 0 i (by simp)
    rw [show (x :: a2).enumFrom i = (i, x) :: a2.enumFrom (i + 1) from rfl,
      List.filterMap_cons, h0]
    exact ih (fun k i2 h1 => hpt (k + 1) i2 (by simpa using h1)) (i + 1)

theorem countP_fivePairs_eq (compile : List Nat → Pat) (sels : List Selector)
    (id : Id) (k : Nat) (h : k < sels.length) :
    ((fivePairs (buildMatcher compile sels) id).countP
        (fun cv => passOne cv.1 cv.2 k) = 5) ↔
      hitsAll compile (sels.get ⟨k, h⟩) id = true := by
  rw [show (5 : Nat) =
      (fivePairs (buildMatcher compile sels) id).length from rfl,
    List.countP_eq_length]
  have ep : (sels.map fun s =>
      compile ((Selector.path s).getD (strB "**"))).getD k (fun _ => false) =
      compile ((Selector.path (sels.get ⟨k, h⟩)).getD (strB "**")) :=
    getD_map_lt sels _ _ k h
  have ec : (sels.map fun s =>
      compile ((Selector.context s).getD (strB "**"))).getD k
        (fun _ => false) =
      compile ((Selector.context (sels.get ⟨k, h⟩)).getD (strB "**")) :=
    getD_map_lt sels _ _ k h
  have es : (sels.map fun s =>
      compile ((Selector.scheme s).getD (strB "**"))).getD k
        (fun _ => false) =
      compile ((Selector.scheme (sels.get ⟨k, h⟩)).getD (strB "**")) :=
    getD_map_lt sels _ _ k h
  have eb : (sels.map fun s =>
      compile ((Selector.binding s).getD (strB "**"))).getD k
        (fun _ => false) =
      compile ((Selector.binding (sels.get ⟨k, h⟩)).getD (strB "**")) :=
    getD_map_lt sels _ _ k h
  have ef : (sels.map fun s =>
      compile ((Selector.fragment s).getD (strB "**"))).getD k
        (fun _ => false) =
      compile ((Selector.fragment (sels.get ⟨k, h⟩)).getD (strB "**")) :=
    getD_map_lt sels _ _ k h
  simp only [fivePairs, buildMatcher, List.forall_mem_cons,
    List.forall_mem_ne, List.not_mem_nil, hitsAll, Bool.and_eq_true]
  cases hb : id.binding with
  | none =>
    cases hf : id.fragment with
    | none =>
      simp only [passOne, ep, ec, es]
      tauto
    | some wf =>
      simp only [passOne, ep, ec, es, ef]
      tauto
  | some wb =>
    cases hf : id.fragment with
    | none =>
      simp only [passOne, ep, ec, es, eb]
      tauto
    | some wf =>
      simp only [passOne, ep, ec, es, eb, ef]
      tauto

/-- C1 (amended): for a matcher built from any selector list, `matches`
returns exactly the ascending list of selector indices whose five
components all individually satisfy glob matching (an optional component
absent from the identifier passing universally), while `is_match` is true
iff each of the five components is matched by some — not necessarily the
same — selector, absent identifier components being tested as the U+FFFE
sentinel; `is_match` is therefore not equivalent to `matches` being
non-empty. -/
theorem C1_matches_isMatch (compile : List Nat → Pat) (sels : List Selector)
    (id : Id) :
    Matcher.matches (buildMatcher compile sels) id =
        expectedMatches compile sels id ∧
      (Matcher.isMatch (buildMatcher compile sels) id = true ↔
        expectedIsMatch compile sels id) := by
  constructor
  · unfold Matcher.matches
    have hn : (buildMatcher compile sels).scheme.length = sels.length := by
      simp [buildMatcher]
    cases hml : matchesLoop (fivePairs (buildMatcher compile sels) id)
        (List.replicate (buildMatcher compile sels).scheme.length 0) with
    | none =>
      obtain ⟨cv, hmem, w, hv, hgs⟩ := matchesLoop_none_spec _ _ hml
      have hfail : ∀ (k : Nat) (hk : k < sels.length),
          hitsAll compile (sels.get ⟨k, hk⟩) id = false := by
        intro k hk
        rw [globSetMatches_nil_iff] at hgs
        simp only [fivePairs, List.mem_cons, List.not_mem_nil, or_false]
          at hmem
        rcases hmem with he | he | he | he | he <;>
          simp only [he, buildMatcher, Option.some.injEq, List.length_map]
            at hgs hv
        · have h5 := hgs k hk
          rw [getD_map_lt sels _ _ k hk, ← hv] at h5
          simp only [hitsAll, h5, Bool.false_and, Bool.and_false]
        · have h5 := hgs k hk
          rw [getD_map_lt sels _ _ k hk, ← hv] at h5
          simp only [hitsAll, h5, Bool.false_and, Bool.and_false]
        · have h5 := hgs k hk
          rw [getD_map_lt sels _ _ k hk, ← hv] at h5
          simp only [hitsAll, h5, Bool.false_and, Bool.and_false]
        · have h5 := hgs k hk
          rw [getD_map_lt sels _ _ k hk] at h5
          simp only [hitsAll, hv, h5, Bool.false_and, Bool.and_false]
        · have h5 := hgs k hk
          rw [getD_map_lt sels _ _ k hk] at h5
          simp only [hitsAll, hv, h5, Bool.false_and, Bool.and_false]
      symm
      unfold expectedMatches
      show (sels.enumFrom 0).filterMap _ = _
      refine enumFrom_filterMap_nil _ sels ?_ 0
      intro k i2 h1
      rw [if_neg]
      rw [hfail k h1]
      simp
    | some slots =>
      obtain ⟨hlen2, hks⟩ := matchesLoop_some_spec _ _ _ hml
      unfold expectedMatches
      show (slots.enumFrom 0).filterMap _ = (sels.enumFrom 0).filterMap _
      refine enumFrom_filterMap_congr _ _ slots sels ?_ ?_ 0
      · rw [hlen2]
        simp [hn]
      · intro k i2 h1 h2
        have hkrep : k < (List.replicate
            (buildMatcher compile sels).scheme.length 0).length := by
          simpa [hn] using h2
        have hcount := hks k hkrep
        rw [getD_replicate_lt _ 0 k (by simpa [hn] using h2)] at hcount
        have hget : slots.get ⟨k, h1⟩ =
            (fivePairs (buildMatcher compile sels) id).countP
              (fun cv => passOne cv.1 cv.2 k) := by
          rw [← List.getD_eq_get slots 0 h1, hcount, Nat.zero_add]
        rw [hget]
        exact if_congr (countP_fivePairs_eq compile sels id k h2) rfl rfl
  · unfold Matcher.isMatch expectedIsMatch compare buildMatcher
    simp only [Bool.and_eq_true, List.any_eq_true, List.mem_map,
      Option.getD_some, exists_exists_and_eq_and]
    tauto

/-- Literal glob engine used for the C1 counterexample: `**` matches
everything, any other pattern matches exactly its own literal text — the
behavior any conforming glob implementation exhibits on wildcard-free
patterns. -/
def litGlob : List Nat → Pat :=
  fun pat => if pat = strB "**" then (fun _ => true) else (fun w => w == pat)

/-- Selector `zrs:t:::a:` (scheme `t`, path `a`). -/
def selA : Selector :=
  match Selector.fromStr (strB "zrs:t:::a:") with
  | .ok s => s
  | _ => ⟨⟨[], [], 0⟩⟩

/-- Selector `zrs:s:::b:` (scheme `s`, path `b`). -/
def selB : Selector :=
  match Selector.fromStr (strB "zrs:s:::b:") with
  | .ok s => s
  | _ => ⟨⟨[], [], 0⟩⟩

/-- Identifier `zri:s::c:a:` (scheme `s`, context `c`, path `a`). -/
def idC : Id :=
  match Id.fromStr (strB "zri:s::c:a:") with
  | .ok i => i
  | _ => ⟨⟨[], [], 0⟩⟩

/-- Matcher over the two selectors. -/
def mEx : Matcher := buildMatcher litGlob [selA, selB]

/-- C1 (counterexample to the claim as stated): a matcher whose `is_match`
returns `true` although `matches` returns the empty set — selector 0
matches the path, selector 1 matches the scheme, but no single selector
matches all five components, so `is_match(id) ↔ !matches(id).is_empty()`
fails. -/
theorem C1_isMatch_vs_matches_cex :
    Matcher.isMatch mEx idC = true ∧ Matcher.matches mEx idC = [] := by
  constructor
  · decide
  · decide

end Zrx
